import Mathlib

/-!
# EasyFlash port layer: the erase planner `ef_port_erase`

A shallow embedding of `ef_port_erase` from `src/ef_port.c` and the properties
of the sequence of flash erase calls it issues.

Conventions of the embedding:

* `uint32_t` values are natural numbers below `2 ^ 32`; every `uint32_t`
  operation that can leave that range is reduced modulo `2 ^ 32`.
* `uint8_t` counters are reduced modulo `256` when they are assigned.
* `size_t` is an unsigned type of `sz` bits (`32 ≤ sz` on the targets of this
  port); its arithmetic is reduced modulo `2 ^ sz`.
* The logging calls `EF_INFO` / `EF_DEBUG` touch neither the flash nor the
  control flow and are left out.
-/

namespace EfPort

/-! ## Constants and macros (lines 74-81) -/

/-- The sector size, `#define EF_ERASE_MIN_SIZE 0x1000`. -/
def EF_ERASE_MIN_SIZE : Nat := 0x1000

/-- The 32 KiB block size, `#define EF_ERASE_32K_SIZE 0x8000`. -/
def EF_ERASE_32K_SIZE : Nat := 0x8000

/-- The 64 KiB block size, `#define EF_ERASE_64K_SIZE 0x10000`. -/
def EF_ERASE_64K_SIZE : Nat := 0x10000

/-- Subtraction of two `uint32_t` values, wrapping modulo `2 ^ 32`. -/
def sub32 (a b : Nat) : Nat := (a + 2 ^ 32 - b) % 2 ^ 32

/-- Subtraction in `size_t` (`sz` bits), wrapping modulo `2 ^ sz`. -/
def subW (sz a b : Nat) : Nat := (a + 2 ^ sz - b) % 2 ^ sz

/-- Assignment of an unsigned value to a `uint8_t` variable. -/
def u8 (x : Nat) : Nat := x % 256

/-- The macro `__64k_start_addr(addr)`:
`addr%EF_ERASE_64K_SIZE ? addr + EF_ERASE_64K_SIZE - addr%EF_ERASE_64K_SIZE : addr`,
evaluated in `uint32_t`. -/
def __64k_start_addr (addr : Nat) : Nat :=
  if addr % EF_ERASE_64K_SIZE ≠ 0 then
    (addr + EF_ERASE_64K_SIZE - addr % EF_ERASE_64K_SIZE) % 2 ^ 32
  else addr

/-! ## Data model -/

/-- Modelled from the spec: the result code type `EfErrCode` of `easyflash.h` is
not in the source. `EF_NO_ERR` is the only value `ef_port_erase` ever uses;
`EF_ERASE_ERR` stands for a reported failure. -/
inductive EfErrCode where
  | EF_NO_ERR
  | EF_ERASE_ERR
  deriving DecidableEq, Repr

/-- The three erase primitives: `FlashSectorErase` (4 KiB), `FlashBlockErase32`
(32 KiB) and `FlashBlockErase64` (64 KiB). -/
inductive Granularity where
  | SECTOR
  | BLOCK32
  | BLOCK64
  deriving DecidableEq, Repr

/-- The number of bytes one primitive of the given granularity erases. -/
def Granularity.size : Granularity → Nat
  | .SECTOR => EF_ERASE_MIN_SIZE
  | .BLOCK32 => EF_ERASE_32K_SIZE
  | .BLOCK64 => EF_ERASE_64K_SIZE

/-- One call of an erase primitive: which primitive, and the address passed. -/
structure EraseCall where
  gran : Granularity
  addr : Nat
  deriving DecidableEq, Repr

/-- Modelled from the spec: the flash driver of `system/spi.h` is not in the
source. Each erase primitive takes the address and the state of the flash and
yields whether the erase succeeded together with the new state of the flash. -/
structure FlashDriver (σ : Type) where
  FlashSectorErase : Nat → σ → Bool × σ
  FlashBlockErase32 : Nat → σ → Bool × σ
  FlashBlockErase64 : Nat → σ → Bool × σ

/-- The local variables `erase_addr`, `erase_len` of `ef_port_erase`, together
with the state of the flash. -/
structure EraseState (σ : Type) where
  erase_addr : Nat
  erase_len : Nat
  flash : σ

/-! ## The code -/

/-- The loop shape shared by every `while(size_xx--)` loop of `ef_port_erase`:

    while(n--) { prim(erase_addr); erase_addr += unit; erase_len += unit; }

The value returned by the primitive is discarded, as in the source. -/
def eraseLoop {σ : Type} (prim : Nat → σ → Bool × σ) (unit : Nat) :
    Nat → EraseState σ → EraseState σ
  | 0, st => st
  | n + 1, st =>
    eraseLoop prim unit n
      { erase_addr := (st.erase_addr + unit) % 2 ^ 32
        erase_len := (st.erase_len + unit) % 2 ^ 32
        flash := (prim st.erase_addr st.flash).2 }

/-- Line 102: `addr -= addr%EF_ERASE_MIN_SIZE`. -/
def normAddr (addr : Nat) : Nat := addr - addr % EF_ERASE_MIN_SIZE

/-- Lines 105-108:
`if(size%EF_ERASE_MIN_SIZE) size = size - size%EF_ERASE_MIN_SIZE + EF_ERASE_MIN_SIZE;`
in `size_t` arithmetic. -/
def normSize (sz size : Nat) : Nat :=
  if size % EF_ERASE_MIN_SIZE ≠ 0 then
    (size - size % EF_ERASE_MIN_SIZE + EF_ERASE_MIN_SIZE) % 2 ^ sz
  else size

/-- Lines 134-172, the branch taken when `size >= EF_ERASE_64K_SIZE`: erase from
`addr` up to the 64 KiB boundary `addr_64k_s`. -/
def ramp {σ : Type} (drv : FlashDriver σ) (addr addr_64k_s : Nat)
    (st : EraseState σ) : EraseState σ :=
  if addr = addr_64k_s then st
  else
    if sub32 addr_64k_s addr ≥ EF_ERASE_32K_SIZE then
      let size_4k := u8 (sub32 (sub32 addr_64k_s EF_ERASE_32K_SIZE) addr / EF_ERASE_MIN_SIZE)
      let size_32k := 1
      let st := eraseLoop drv.FlashSectorErase EF_ERASE_MIN_SIZE size_4k st
      eraseLoop drv.FlashBlockErase32 EF_ERASE_32K_SIZE size_32k st
    else
      let size_4k := u8 (sub32 addr_64k_s addr / EF_ERASE_MIN_SIZE)
      eraseLoop drv.FlashSectorErase EF_ERASE_MIN_SIZE size_4k st

/-- Lines 174-201, the label `__fin_erase`: erase what is left of `size`
with 64 KiB blocks, then 32 KiB blocks, then sectors. -/
def fin_erase {σ : Type} (sz : Nat) (drv : FlashDriver σ) (size : Nat)
    (st : EraseState σ) : EraseState σ :=
  let size_64k := u8 (subW sz size st.erase_len / EF_ERASE_64K_SIZE)
  let size_32k := u8 ((subW sz size st.erase_len % EF_ERASE_64K_SIZE) / EF_ERASE_32K_SIZE)
  let size_4k := u8 ((subW sz size st.erase_len % EF_ERASE_32K_SIZE) / EF_ERASE_MIN_SIZE)
  let st := eraseLoop drv.FlashBlockErase64 EF_ERASE_64K_SIZE size_64k st
  let st := eraseLoop drv.FlashBlockErase32 EF_ERASE_32K_SIZE size_32k st
  eraseLoop drv.FlashSectorErase EF_ERASE_MIN_SIZE size_4k st

/-- The function `ef_port_erase(addr, size)` (lines 92-205), run on a flash
driver `drv` from the flash state `fl`. It yields the returned result code and
the final state of the flash. -/
def ef_port_erase {σ : Type} (sz : Nat) (drv : FlashDriver σ) (addr size : Nat)
    (fl : σ) : EfErrCode × σ :=
  let result := EfErrCode.EF_NO_ERR
  let addr_64k_s := __64k_start_addr addr
  let addr := normAddr addr
  let size := normSize sz size
  let fl := if size = EF_ERASE_MIN_SIZE then (drv.FlashSectorErase addr fl).2 else fl
  let st : EraseState σ := { erase_addr := addr, erase_len := 0, flash := fl }
  if size < EF_ERASE_64K_SIZE then
    let size_4k := u8 (size / EF_ERASE_MIN_SIZE)
    let st := eraseLoop drv.FlashSectorErase EF_ERASE_MIN_SIZE size_4k st
    (result, st.flash)
  else
    let st := ramp drv addr addr_64k_s st
    let st := fin_erase sz drv size st
    (result, st.flash)

/-! ## Drivers -/

/-- The driver that records every call it receives, in order, and always
reports success. -/
def recorder : FlashDriver (List EraseCall) where
  FlashSectorErase := fun a log => (true, log ++ [⟨.SECTOR, a⟩])
  FlashBlockErase32 := fun a log => (true, log ++ [⟨.BLOCK32, a⟩])
  FlashBlockErase64 := fun a log => (true, log ++ [⟨.BLOCK64, a⟩])

/-- The erase plan of a request: the sequence of primitive calls that
`ef_port_erase` issues, in the order of emission. -/
def erasePlan (sz addr size : Nat) : List EraseCall :=
  (ef_port_erase sz recorder addr size []).2

/-- The result code `ef_port_erase` returns on the recording driver. -/
def eraseResult (sz addr size : Nat) : EfErrCode :=
  (ef_port_erase sz recorder addr size []).1

/-- A driver that records every call together with the outcome it reported,
and whose `k`-th call (counted from 1) fails. -/
def faultyDriver (k : Nat) : FlashDriver (List (EraseCall × Bool)) where
  FlashSectorErase := fun a log =>
    (decide (log.length + 1 ≠ k), log ++ [(⟨.SECTOR, a⟩, decide (log.length + 1 ≠ k))])
  FlashBlockErase32 := fun a log =>
    (decide (log.length + 1 ≠ k), log ++ [(⟨.BLOCK32, a⟩, decide (log.length + 1 ≠ k))])
  FlashBlockErase64 := fun a log =>
    (decide (log.length + 1 ≠ k), log ++ [(⟨.BLOCK64, a⟩, decide (log.length + 1 ≠ k))])

/-- The primitive of a driver that an erase call invokes. -/
def FlashDriver.prim {σ : Type} (drv : FlashDriver σ) : Granularity → Nat → σ → Bool × σ
  | .SECTOR => drv.FlashSectorErase
  | .BLOCK32 => drv.FlashBlockErase32
  | .BLOCK64 => drv.FlashBlockErase64

/-- Execute a sequence of erase calls on a driver, one after the other,
whatever each call reports. -/
def runCalls {σ : Type} (drv : FlashDriver σ) : List EraseCall → σ → σ
  | [], fl => fl
  | c :: cs, fl => runCalls drv cs (drv.prim c.gran c.addr fl).2

/-! ## Closed forms of the loops -/

/-- The calls issued by `n` iterations of a loop of granularity `g` that
starts with `erase_addr = a`. -/
def stepsFrom (g : Granularity) : Nat → Nat → List EraseCall
  | _, 0 => []
  | a, n + 1 => ⟨g, a⟩ :: stepsFrom g ((a + g.size) % 2 ^ 32) n

/-- The value of a `uint32_t` variable that starts at `a` after `n` iterations
of `a += unit`. -/
def loopAddr (unit : Nat) : Nat → Nat → Nat
  | a, 0 => a
  | a, n + 1 => loopAddr unit ((a + unit) % 2 ^ 32) n

/-- The calls of the ramp (lines 134-172) started at `erase_addr = a`. -/
def rampCalls (a s64 : Nat) : List EraseCall :=
  if a = s64 then []
  else if sub32 s64 a ≥ EF_ERASE_32K_SIZE then
    stepsFrom .SECTOR a (u8 (sub32 (sub32 s64 EF_ERASE_32K_SIZE) a / EF_ERASE_MIN_SIZE)) ++
      stepsFrom .BLOCK32
        (loopAddr EF_ERASE_MIN_SIZE a
          (u8 (sub32 (sub32 s64 EF_ERASE_32K_SIZE) a / EF_ERASE_MIN_SIZE))) 1
  else stepsFrom .SECTOR a (u8 (sub32 s64 a / EF_ERASE_MIN_SIZE))

/-- The value of `erase_addr` after the ramp started at `erase_addr = a`. -/
def rampAddr (a s64 : Nat) : Nat :=
  if a = s64 then a
  else if sub32 s64 a ≥ EF_ERASE_32K_SIZE then
    loopAddr EF_ERASE_32K_SIZE
      (loopAddr EF_ERASE_MIN_SIZE a
        (u8 (sub32 (sub32 s64 EF_ERASE_32K_SIZE) a / EF_ERASE_MIN_SIZE))) 1
  else loopAddr EF_ERASE_MIN_SIZE a (u8 (sub32 s64 a / EF_ERASE_MIN_SIZE))

/-- The value of `erase_len` after the ramp started at `erase_len = 0`. -/
def rampLen (a s64 : Nat) : Nat :=
  if a = s64 then 0
  else if sub32 s64 a ≥ EF_ERASE_32K_SIZE then
    loopAddr EF_ERASE_32K_SIZE
      (loopAddr EF_ERASE_MIN_SIZE 0
        (u8 (sub32 (sub32 s64 EF_ERASE_32K_SIZE) a / EF_ERASE_MIN_SIZE))) 1
  else loopAddr EF_ERASE_MIN_SIZE 0 (u8 (sub32 s64 a / EF_ERASE_MIN_SIZE))

/-- The three loop counters computed at the label `__fin_erase` from what is
left of `size`. -/
def finCount64 (sz size l : Nat) : Nat := u8 (subW sz size l / EF_ERASE_64K_SIZE)

/-- The counter `size_32k` computed at the label `__fin_erase`. -/
def finCount32 (sz size l : Nat) : Nat :=
  u8 ((subW sz size l % EF_ERASE_64K_SIZE) / EF_ERASE_32K_SIZE)

/-- The counter `size_4k` computed at the label `__fin_erase`. -/
def finCount4 (sz size l : Nat) : Nat :=
  u8 ((subW sz size l % EF_ERASE_32K_SIZE) / EF_ERASE_MIN_SIZE)

/-- The calls of the final phase (lines 174-201) entered with
`erase_addr = e` and `erase_len = l`. -/
def finCalls (sz size e l : Nat) : List EraseCall :=
  stepsFrom .BLOCK64 e (finCount64 sz size l) ++
    (stepsFrom .BLOCK32 (loopAddr EF_ERASE_64K_SIZE e (finCount64 sz size l))
        (finCount32 sz size l) ++
      stepsFrom .SECTOR
        (loopAddr EF_ERASE_32K_SIZE (loopAddr EF_ERASE_64K_SIZE e (finCount64 sz size l))
          (finCount32 sz size l))
        (finCount4 sz size l))

/-- The calls of the whole of `ef_port_erase`, in closed form. -/
def planOf (sz addr size : Nat) : List EraseCall :=
  (if normSize sz size = EF_ERASE_MIN_SIZE then [⟨.SECTOR, normAddr addr⟩] else []) ++
    if normSize sz size < EF_ERASE_64K_SIZE then
      stepsFrom .SECTOR (normAddr addr) (u8 (normSize sz size / EF_ERASE_MIN_SIZE))
    else
      rampCalls (normAddr addr) (__64k_start_addr addr) ++
        finCalls sz (normSize sz size)
          (rampAddr (normAddr addr) (__64k_start_addr addr))
          (rampLen (normAddr addr) (__64k_start_addr addr))

/-- The number of bytes the ramp erases: nothing when the requested address is
on a 64 KiB boundary, otherwise the distance from the normalised address to the
next 64 KiB boundary above the requested address. -/
def rampDist (addr : Nat) : Nat :=
  if addr % 65536 = 0 then 0 else 65536 - normAddr addr % 65536

/-- The calls `l`, taken in order, tile the byte range `[lo, hi)`: the first
call starts at `lo`, each later call starts where the span of the previous one
ended, and the span of the last call ends at `hi`. -/
def Tiles : Nat → Nat → List EraseCall → Prop
  | lo, hi, [] => lo = hi
  | lo, hi, c :: cs => c.addr = lo ∧ Tiles (lo + c.gran.size) hi cs

/-- A call is aligned when its address is a multiple of the size of its own
granularity. -/
def Aligned (c : EraseCall) : Prop := c.addr % c.gran.size = 0

/-- The number of bytes erased by the final phase entered with
`erase_len = l`. -/
def finLen (sz size l : Nat) : Nat :=
  finCount64 sz size l * 65536 + finCount32 sz size l * 32768 + finCount4 sz size l * 4096

/-- The number of bytes erased by the loops of `ef_port_erase`. -/
def erasedLen (sz addr size : Nat) : Nat :=
  if normSize sz size < 65536 then normSize sz size
  else rampDist addr + finLen sz (normSize sz size) (rampDist addr)

/-- Byte `b` lies in the span of one of the calls of `plan`. -/
def covered (plan : List EraseCall) (b : Nat) : Prop :=
  ∃ c ∈ plan, c.addr ≤ b ∧ b < c.addr + c.gran.size

instance (plan : List EraseCall) (b : Nat) : Decidable (covered plan b) :=
  inferInstanceAs (Decidable (∃ c ∈ plan, c.addr ≤ b ∧ b < c.addr + c.gran.size))

/-- The sequence of granularities of a plan. -/
def kinds (plan : List EraseCall) : List Granularity := plan.map (fun c => c.gran)

/-- The decomposition the specification words as minimal for a 64 KiB-aligned
start and a normalised length `N`: `floor(N/65536)` 64 KiB steps, then
`floor((N mod 65536)/32768)` 32 KiB steps, then `(N mod 32768)/4096` sector
steps. -/
def specMinimalKinds (N : Nat) : List Granularity :=
  List.replicate (N / 65536) Granularity.BLOCK64 ++
    (List.replicate (N % 65536 / 32768) Granularity.BLOCK32 ++
      List.replicate (N % 32768 / 4096) Granularity.SECTOR)

/-- The calls of the ramp phase of a request: what the code of lines 134-172
issues on the recording driver, entered as in `ef_port_erase`. -/
def rampTrace (addr : Nat) : List EraseCall :=
  (ramp recorder (normAddr addr) (__64k_start_addr addr)
    { erase_addr := normAddr addr, erase_len := 0, flash := [] }).flash

/-- The calls of the final phase of a request: what the code at `__fin_erase`
issues on the recording driver, entered with the `erase_addr` and `erase_len`
the ramp has left. -/
def finTrace (sz addr size : Nat) : List EraseCall :=
  (fin_erase sz recorder (normSize sz size)
    { erase_addr := (ramp recorder (normAddr addr) (__64k_start_addr addr)
        { erase_addr := normAddr addr, erase_len := 0, flash := [] }).erase_addr
      erase_len := (ramp recorder (normAddr addr) (__64k_start_addr addr)
        { erase_addr := normAddr addr, erase_len := 0, flash := [] }).erase_len
      flash := [] }).flash

/-- The length rounded up to the next multiple of 4096, as a natural number:
`ceil(length, 4096)` in the words of the specification. -/
def ceilSector (n : Nat) : Nat := (n + 4095) / 4096 * 4096

/-- The next 64 KiB boundary strictly above `a`, as a natural number. -/
def nextBoundary (a : Nat) : Nat := a - a % 65536 + 65536

/-- The walk of `n` sector erases at `a`, `a + 4096`, `a + 2 * 4096`, ... -/
def sectorWalk (a n : Nat) : List EraseCall :=
  (List.range n).map (fun i => (⟨.SECTOR, a + i * 4096⟩ : EraseCall))

/-- The walk of `n` sector erases from `a` in `uint32_t` addresses:
`a`, `a + 4096`, ... reduced modulo `2^32`. -/
def sectorWalkMod (a n : Nat) : List EraseCall :=
  (List.range n).map (fun i => (⟨.SECTOR, (a + i * 4096) % 2 ^ 32⟩ : EraseCall))

/-! ## The code against its closed form -/

theorem runCalls_append {σ : Type} (drv : FlashDriver σ) (xs ys : List EraseCall) (fl : σ) :
    runCalls drv (xs ++ ys) fl = runCalls drv ys (runCalls drv xs fl) := by
  induction xs generalizing fl with
  | nil => rfl
  | cons c cs ih => simp [runCalls, ih]

theorem runCalls_recorder (xs log : List EraseCall) :
    runCalls recorder xs log = log ++ xs := by
  induction xs generalizing log with
  | nil => simp [runCalls]
  | cons c cs ih =>
    obtain ⟨g, a⟩ := c
    cases g
    · show runCalls recorder cs (log ++ [⟨.SECTOR, a⟩]) = _
      rw [ih]; simp
    · show runCalls recorder cs (log ++ [⟨.BLOCK32, a⟩]) = _
      rw [ih]; simp
    · show runCalls recorder cs (log ++ [⟨.BLOCK64, a⟩]) = _
      rw [ih]; simp

theorem eraseLoop_eq {σ : Type} (drv : FlashDriver σ) (g : Granularity) (n : Nat)
    (st : EraseState σ) :
    eraseLoop (drv.prim g) g.size n st =
      { erase_addr := loopAddr g.size st.erase_addr n
        erase_len := loopAddr g.size st.erase_len n
        flash := runCalls drv (stepsFrom g st.erase_addr n) st.flash } := by
  induction n generalizing st with
  | zero => rfl
  | succ n ih => simp [eraseLoop, ih, loopAddr, stepsFrom, runCalls]

theorem eraseLoop_sector {σ : Type} (drv : FlashDriver σ) (n : Nat) (st : EraseState σ) :
    eraseLoop drv.FlashSectorErase EF_ERASE_MIN_SIZE n st =
      { erase_addr := loopAddr EF_ERASE_MIN_SIZE st.erase_addr n
        erase_len := loopAddr EF_ERASE_MIN_SIZE st.erase_len n
        flash := runCalls drv (stepsFrom .SECTOR st.erase_addr n) st.flash } :=
  eraseLoop_eq drv .SECTOR n st

theorem eraseLoop_block32 {σ : Type} (drv : FlashDriver σ) (n : Nat) (st : EraseState σ) :
    eraseLoop drv.FlashBlockErase32 EF_ERASE_32K_SIZE n st =
      { erase_addr := loopAddr EF_ERASE_32K_SIZE st.erase_addr n
        erase_len := loopAddr EF_ERASE_32K_SIZE st.erase_len n
        flash := runCalls drv (stepsFrom .BLOCK32 st.erase_addr n) st.flash } :=
  eraseLoop_eq drv .BLOCK32 n st

theorem eraseLoop_block64 {σ : Type} (drv : FlashDriver σ) (n : Nat) (st : EraseState σ) :
    eraseLoop drv.FlashBlockErase64 EF_ERASE_64K_SIZE n st =
      { erase_addr := loopAddr EF_ERASE_64K_SIZE st.erase_addr n
        erase_len := loopAddr EF_ERASE_64K_SIZE st.erase_len n
        flash := runCalls drv (stepsFrom .BLOCK64 st.erase_addr n) st.flash } :=
  eraseLoop_eq drv .BLOCK64 n st

theorem ramp_eq {σ : Type} (drv : FlashDriver σ) (a s64 : Nat) (fl : σ) :
    ramp drv a s64 { erase_addr := a, erase_len := 0, flash := fl } =
      { erase_addr := rampAddr a s64
        erase_len := rampLen a s64
        flash := runCalls drv (rampCalls a s64) fl } := by
  unfold ramp rampAddr rampLen rampCalls
  by_cases h1 : a = s64
  · simp [h1, runCalls]
  · by_cases h2 : sub32 s64 a ≥ EF_ERASE_32K_SIZE
    · simp only [h1, h2, if_true, if_false, eraseLoop_sector, eraseLoop_block32,
        runCalls_append]
    · simp only [h1, h2, if_true, if_false, eraseLoop_sector]

theorem fin_erase_flash {σ : Type} (sz : Nat) (drv : FlashDriver σ) (size e l : Nat) (fl : σ) :
    (fin_erase sz drv size { erase_addr := e, erase_len := l, flash := fl }).flash =
      runCalls drv (finCalls sz size e l) fl := by
  simp only [fin_erase, finCalls, finCount64, finCount32, finCount4, eraseLoop_sector,
    eraseLoop_block32, eraseLoop_block64, runCalls_append]

/-- On every driver, `ef_port_erase` returns `EF_NO_ERR` and leaves the flash in
the state reached by executing the calls of `planOf` one after the other. -/
theorem ef_port_erase_eq {σ : Type} (sz : Nat) (drv : FlashDriver σ) (addr size : Nat)
    (fl : σ) :
    ef_port_erase sz drv addr size fl =
      (EfErrCode.EF_NO_ERR, runCalls drv (planOf sz addr size) fl) := by
  unfold ef_port_erase planOf
  by_cases h1 : normSize sz size = EF_ERASE_MIN_SIZE
  · have h2 : normSize sz size < EF_ERASE_64K_SIZE := by
      rw [h1]; decide
    simp only [h1, h2, if_true, eraseLoop_sector, runCalls_append]
    rfl
  · by_cases h2 : normSize sz size < EF_ERASE_64K_SIZE
    · simp only [h1, h2, if_true, if_false, eraseLoop_sector, List.nil_append]
    · simp only [h1, h2, if_false, ramp_eq, fin_erase_flash, runCalls_append,
        List.nil_append]

theorem erasePlan_eq (sz addr size : Nat) : erasePlan sz addr size = planOf sz addr size := by
  simp [erasePlan, ef_port_erase_eq, runCalls_recorder]

/-! ## Arithmetic of the loops -/

theorem loopAddr_eq (u a n : Nat) (ha : a < 2 ^ 32) :
    loopAddr u a n = (a + n * u) % 2 ^ 32 := by
  induction n generalizing a with
  | zero => simp [loopAddr]; omega
  | succ n ih =>
    have h1 : (a + u) % 2 ^ 32 < 2 ^ 32 := Nat.mod_lt _ (Nat.two_pow_pos 32)
    have h2 : (n + 1) * u = n * u + u := by ring
    rw [loopAddr, ih _ h1, h2]
    omega

theorem normAddr_lt (addr : Nat) (ha : addr < 2 ^ 32) : normAddr addr < 2 ^ 32 := by
  unfold normAddr; omega

theorem normAddr_mod (addr : Nat) : normAddr addr % 4096 = 0 := by
  simp only [normAddr, EF_ERASE_MIN_SIZE]; omega

/-- Every call of one loop has the granularity of the loop, and is aligned to
it when the loop starts at an aligned address. -/
theorem stepsFrom_aligned (g : Granularity) (a n : Nat) (h : a % g.size = 0) :
    ∀ c ∈ stepsFrom g a n, c.gran = g ∧ c.addr % g.size = 0 := by
  induction n generalizing a with
  | zero => simp [stepsFrom]
  | succ n ih =>
    intro c hc
    simp only [stepsFrom, List.mem_cons] at hc
    rcases hc with rfl | hc
    · exact ⟨rfl, h⟩
    · refine ih _ ?_ c hc
      cases g <;>
        simp only [Granularity.size, EF_ERASE_MIN_SIZE, EF_ERASE_32K_SIZE,
          EF_ERASE_64K_SIZE] at h ⊢ <;> omega

/-- When the requested address is on a 64 KiB boundary, normalisation leaves it
unchanged and the ramp has nothing to do. -/
theorem ramp_arith_aligned (addr : Nat) (hr : addr % 65536 = 0) :
    normAddr addr = addr ∧ __64k_start_addr addr = addr := by
  unfold normAddr __64k_start_addr EF_ERASE_MIN_SIZE EF_ERASE_64K_SIZE
  rw [if_neg (by omega)]
  omega

/-- When the requested address is off the 64 KiB grid, the distance from the
normalised address to `addr_64k_s`, computed in `uint32_t`. -/
theorem ramp_arith (addr : Nat) (ha : addr < 2 ^ 32) (hr : addr % 65536 ≠ 0) :
    normAddr addr ≠ __64k_start_addr addr ∧
    __64k_start_addr addr = (normAddr addr + (65536 - normAddr addr % 65536)) % 2 ^ 32 ∧
    sub32 (__64k_start_addr addr) (normAddr addr) = 65536 - normAddr addr % 65536 ∧
    (normAddr addr % 65536 ≤ 32768 →
      sub32 (sub32 (__64k_start_addr addr) EF_ERASE_32K_SIZE) (normAddr addr) =
        32768 - normAddr addr % 65536) := by
  unfold normAddr __64k_start_addr sub32 EF_ERASE_MIN_SIZE EF_ERASE_64K_SIZE EF_ERASE_32K_SIZE
  rw [if_pos hr]
  omega

/-- The ramp leaves `erase_addr` on a 64 KiB boundary. -/
theorem rampAddr_mod (addr : Nat) (ha : addr < 2 ^ 32) :
    rampAddr (normAddr addr) (__64k_start_addr addr) % 65536 = 0 := by
  have hn := normAddr_lt addr ha
  have hm := normAddr_mod addr
  by_cases hr : addr % 65536 = 0
  · obtain ⟨h1, h2⟩ := ramp_arith_aligned addr hr
    unfold rampAddr
    rw [h1, h2, if_pos rfl]
    exact hr
  · obtain ⟨h1, h2, h3, h4⟩ := ramp_arith addr ha hr
    unfold rampAddr
    rw [if_neg h1, h3]
    by_cases h5 : 65536 - normAddr addr % 65536 ≥ EF_ERASE_32K_SIZE
    · have h6 : normAddr addr % 65536 ≤ 32768 := by
        unfold EF_ERASE_32K_SIZE at h5; omega
      rw [if_pos h5, h4 h6]
      have h7 : loopAddr EF_ERASE_MIN_SIZE (normAddr addr)
          (u8 ((32768 - normAddr addr % 65536) / EF_ERASE_MIN_SIZE)) < 2 ^ 32 := by
        rw [loopAddr_eq _ _ _ hn]; exact Nat.mod_lt _ (Nat.two_pow_pos 32)
      rw [loopAddr_eq _ _ _ h7, loopAddr_eq _ _ _ hn]
      unfold u8 EF_ERASE_MIN_SIZE EF_ERASE_32K_SIZE
      omega
    · rw [if_neg h5, loopAddr_eq _ _ _ hn]
      unfold u8 EF_ERASE_MIN_SIZE
      unfold EF_ERASE_32K_SIZE at h5
      omega

theorem rampDist_le (addr : Nat) : rampDist addr ≤ 65536 := by
  unfold rampDist; split <;> omega

theorem rampDist_mod (addr : Nat) : rampDist addr % 4096 = 0 := by
  have := normAddr_mod addr
  unfold rampDist; split <;> omega

theorem ramp_aligned (addr : Nat) (hr : addr % 65536 = 0) :
    rampCalls (normAddr addr) (__64k_start_addr addr) = [] ∧
    rampAddr (normAddr addr) (__64k_start_addr addr) = normAddr addr ∧
    rampLen (normAddr addr) (__64k_start_addr addr) = 0 := by
  obtain ⟨h1, h2⟩ := ramp_arith_aligned addr hr
  unfold rampCalls rampAddr rampLen
  rw [h1, h2]
  simp

theorem ramp_far (addr : Nat) (ha : addr < 2 ^ 32) (hr : addr % 65536 ≠ 0)
    (hd : normAddr addr % 65536 ≤ 32768) :
    rampCalls (normAddr addr) (__64k_start_addr addr) =
      stepsFrom .SECTOR (normAddr addr) ((32768 - normAddr addr % 65536) / 4096) ++
        [⟨.BLOCK32, normAddr addr + (32768 - normAddr addr % 65536)⟩] ∧
    rampAddr (normAddr addr) (__64k_start_addr addr) =
      (normAddr addr + (65536 - normAddr addr % 65536)) % 2 ^ 32 ∧
    rampLen (normAddr addr) (__64k_start_addr addr) = 65536 - normAddr addr % 65536 := by
  have hn := normAddr_lt addr ha
  have hm := normAddr_mod addr
  obtain ⟨h1, _, h3, h4⟩ := ramp_arith addr ha hr
  have h5 : 65536 - normAddr addr % 65536 ≥ EF_ERASE_32K_SIZE := by
    unfold EF_ERASE_32K_SIZE; omega
  have h6 : u8 ((32768 - normAddr addr % 65536) / EF_ERASE_MIN_SIZE) =
      (32768 - normAddr addr % 65536) / 4096 := by
    unfold u8 EF_ERASE_MIN_SIZE; omega
  have h7 : loopAddr EF_ERASE_MIN_SIZE (normAddr addr)
      ((32768 - normAddr addr % 65536) / 4096) =
        normAddr addr + (32768 - normAddr addr % 65536) := by
    rw [loopAddr_eq _ _ _ hn]; unfold EF_ERASE_MIN_SIZE; omega
  have h8 : loopAddr EF_ERASE_MIN_SIZE 0 ((32768 - normAddr addr % 65536) / 4096) =
      32768 - normAddr addr % 65536 := by
    rw [loopAddr_eq _ _ _ (Nat.two_pow_pos 32)]; unfold EF_ERASE_MIN_SIZE; omega
  unfold rampCalls rampAddr rampLen
  rw [if_neg h1, if_neg h1, if_neg h1, h3, if_pos h5, if_pos h5, if_pos h5, h4 hd, h6, h7, h8]
  refine ⟨rfl, ?_, ?_⟩
  · rw [loopAddr_eq _ _ _ (by omega)]; unfold EF_ERASE_32K_SIZE; omega
  · rw [loopAddr_eq _ _ _ (by omega)]; unfold EF_ERASE_32K_SIZE; omega

theorem ramp_near (addr : Nat) (ha : addr < 2 ^ 32) (hr : addr % 65536 ≠ 0)
    (hd : 32768 < normAddr addr % 65536) :
    rampCalls (normAddr addr) (__64k_start_addr addr) =
      stepsFrom .SECTOR (normAddr addr) ((65536 - normAddr addr % 65536) / 4096) ∧
    rampAddr (normAddr addr) (__64k_start_addr addr) =
      (normAddr addr + (65536 - normAddr addr % 65536)) % 2 ^ 32 ∧
    rampLen (normAddr addr) (__64k_start_addr addr) = 65536 - normAddr addr % 65536 := by
  have hn := normAddr_lt addr ha
  have hm := normAddr_mod addr
  obtain ⟨h1, _, h3, _⟩ := ramp_arith addr ha hr
  have h5 : ¬ 65536 - normAddr addr % 65536 ≥ EF_ERASE_32K_SIZE := by
    unfold EF_ERASE_32K_SIZE; omega
  have h6 : u8 ((65536 - normAddr addr % 65536) / EF_ERASE_MIN_SIZE) =
      (65536 - normAddr addr % 65536) / 4096 := by
    unfold u8 EF_ERASE_MIN_SIZE; omega
  unfold rampCalls rampAddr rampLen
  rw [if_neg h1, if_neg h1, if_neg h1, h3, if_neg h5, if_neg h5, if_neg h5, h6]
  refine ⟨rfl, ?_, ?_⟩
  · rw [loopAddr_eq _ _ _ hn]; unfold EF_ERASE_MIN_SIZE; omega
  · rw [loopAddr_eq _ _ _ (Nat.two_pow_pos 32)]; unfold EF_ERASE_MIN_SIZE; omega

/-- What the ramp leaves behind: `erase_len` is the ramp distance and
`erase_addr` has advanced by it. -/
theorem ramp_summary (addr : Nat) (ha : addr < 2 ^ 32) :
    rampAddr (normAddr addr) (__64k_start_addr addr) =
      (normAddr addr + rampDist addr) % 2 ^ 32 ∧
    rampLen (normAddr addr) (__64k_start_addr addr) = rampDist addr := by
  have hn := normAddr_lt addr ha
  unfold rampDist
  by_cases hr : addr % 65536 = 0
  · obtain ⟨_, h2, h3⟩ := ramp_aligned addr hr
    rw [if_pos hr, h2, h3]
    exact ⟨by omega, rfl⟩
  · rw [if_neg hr]
    by_cases hd : normAddr addr % 65536 ≤ 32768
    · exact (ramp_far addr ha hr hd).2
    · exact (ramp_near addr ha hr (by omega)).2

/-! ## Alignment of the calls -/

theorem stepsFrom_allAligned (g : Granularity) (a n : Nat) (h : a % g.size = 0) :
    ∀ c ∈ stepsFrom g a n, Aligned c := by
  intro c hc
  obtain ⟨h1, h2⟩ := stepsFrom_aligned g a n h c hc
  unfold Aligned
  rw [h1]; exact h2

theorem rampCalls_aligned (addr : Nat) (ha : addr < 2 ^ 32) :
    ∀ c ∈ rampCalls (normAddr addr) (__64k_start_addr addr), Aligned c := by
  have hm := normAddr_mod addr
  have hs : normAddr addr % Granularity.SECTOR.size = 0 := hm
  by_cases hr : addr % 65536 = 0
  · rw [(ramp_aligned addr hr).1]; simp
  · by_cases hd : normAddr addr % 65536 ≤ 32768
    · rw [(ramp_far addr ha hr hd).1]
      intro c hc
      rcases List.mem_append.1 hc with h | h
      · exact stepsFrom_allAligned _ _ _ hs c h
      · rw [List.mem_singleton] at h
        subst h
        show (normAddr addr + (32768 - normAddr addr % 65536)) % 32768 = 0
        omega
    · rw [(ramp_near addr ha hr (by omega)).1]
      exact stepsFrom_allAligned _ _ _ hs

theorem finCalls_aligned (sz size e l : Nat) (he : e < 2 ^ 32) (hm : e % 65536 = 0) :
    ∀ c ∈ finCalls sz size e l, Aligned c := by
  have h1 : loopAddr EF_ERASE_64K_SIZE e (finCount64 sz size l) < 2 ^ 32 := by
    rw [loopAddr_eq _ _ _ he]; exact Nat.mod_lt _ (Nat.two_pow_pos 32)
  intro c hc
  unfold finCalls at hc
  rcases List.mem_append.1 hc with h | h
  · exact stepsFrom_allAligned _ _ _ hm c h
  · rcases List.mem_append.1 h with h | h
    · refine stepsFrom_allAligned _ _ _ ?_ c h
      rw [loopAddr_eq _ _ _ he]
      show (e + finCount64 sz size l * 65536) % 2 ^ 32 % 32768 = 0
      omega
    · refine stepsFrom_allAligned _ _ _ ?_ c h
      rw [loopAddr_eq _ _ _ h1, loopAddr_eq _ _ _ he]
      show ((e + finCount64 sz size l * 65536) % 2 ^ 32 + finCount32 sz size l * 32768)
        % 2 ^ 32 % 4096 = 0
      omega

theorem planOf_aligned (sz addr size : Nat) (ha : addr < 2 ^ 32) :
    ∀ c ∈ planOf sz addr size, Aligned c := by
  have hm : normAddr addr % Granularity.SECTOR.size = 0 := normAddr_mod addr
  intro c hc
  unfold planOf at hc
  rcases List.mem_append.1 hc with h | h
  · split at h
    · rw [List.mem_singleton] at h
      subst h
      exact hm
    · simp at h
  · split at h
    · exact stepsFrom_allAligned _ _ _ hm c h
    · rcases List.mem_append.1 h with h | h
      · exact rampCalls_aligned addr ha c h
      · refine finCalls_aligned _ _ _ _ ?_ (rampAddr_mod addr ha) c h
        rw [(ramp_summary addr ha).1]
        exact Nat.mod_lt _ (Nat.two_pow_pos 32)

/-! ## Normalisation of the length -/

theorem normSize_mod (sz size : Nat) : normSize sz size % 4096 = 0 := by
  unfold normSize EF_ERASE_MIN_SIZE
  split
  · have hx : (size - size % 4096 + 4096) % 4096 = 0 := by omega
    rcases Nat.le_total sz 12 with h | h
    · have hd : 2 ^ sz ∣ size - size % 4096 + 4096 :=
        Nat.dvd_trans (Nat.pow_dvd_pow 2 h) (Nat.dvd_of_mod_eq_zero hx)
      rw [Nat.mod_eq_zero_of_dvd hd]
    · have hd : (4096 : Nat) ∣ 2 ^ sz := Nat.pow_dvd_pow 2 h
      rw [Nat.mod_mod_of_dvd _ hd]
      exact hx
  · omega

theorem normSize_lt (sz size : Nat) (hs : size < 2 ^ sz) : normSize sz size < 2 ^ sz := by
  unfold normSize
  split
  · exact Nat.mod_lt _ (Nat.two_pow_pos sz)
  · exact hs

/-- Without overflow of `size_t`, the normalised length is the length rounded
up to the next multiple of 4096. -/
theorem normSize_eq (sz size : Nat) (hs : size + 4096 ≤ 2 ^ sz) :
    normSize sz size = (size + 4095) / 4096 * 4096 := by
  unfold normSize EF_ERASE_MIN_SIZE
  split
  · next h =>
    have h12 : 12 ≤ sz := by
      by_contra hc
      have : 2 ^ sz < 2 ^ 12 := Nat.pow_lt_pow_right (by norm_num) (by omega)
      omega
    have hd : (4096 : Nat) ∣ 2 ^ sz := Nat.pow_dvd_pow 2 h12
    obtain ⟨k, hk⟩ := hd
    have hlt : size - size % 4096 + 4096 < 2 ^ sz := by omega
    rw [Nat.mod_eq_of_lt hlt]
    omega
  · omega

theorem subW_eq (sz a b : Nat) (hb : b ≤ a) (ha : a < 2 ^ sz) : subW sz a b = a - b := by
  unfold subW
  have h : a + 2 ^ sz - b = a - b + 2 ^ sz := by omega
  rw [h, Nat.add_mod_right]
  exact Nat.mod_eq_of_lt (by omega)

/-! ## Tiling -/

theorem Tiles_append (lo mid hi : Nat) (xs ys : List EraseCall) (h1 : Tiles lo mid xs)
    (h2 : Tiles mid hi ys) : Tiles lo hi (xs ++ ys) := by
  induction xs generalizing lo with
  | nil =>
    simp only [Tiles] at h1
    subst h1
    exact h2
  | cons c cs ih =>
    obtain ⟨h3, h4⟩ := h1
    exact ⟨h3, ih _ h4⟩

theorem Granularity.size_pos (g : Granularity) : 0 < g.size := by
  cases g <;> decide

theorem Tiles_le (lo hi : Nat) (l : List EraseCall) (h : Tiles lo hi l) : lo ≤ hi := by
  induction l generalizing lo with
  | nil => exact Nat.le_of_eq h
  | cons c cs ih =>
    have := ih _ h.2
    omega

/-- Every call of a tiling of `[lo, hi)` erases inside `[lo, hi)`. -/
theorem Tiles_bounds (lo hi : Nat) (l : List EraseCall) (h : Tiles lo hi l) :
    ∀ c ∈ l, lo ≤ c.addr ∧ c.addr + c.gran.size ≤ hi := by
  induction l generalizing lo with
  | nil => simp
  | cons c cs ih =>
    obtain ⟨h1, h2⟩ := h
    intro d hd
    rcases List.mem_cons.1 hd with rfl | hd
    · have := Tiles_le _ _ _ h2
      omega
    · have := ih _ h2 d hd
      omega

theorem Tiles_chain (lo hi : Nat) (l : List EraseCall) (h : Tiles lo hi l) :
    List.Chain' (fun c d => d.addr = c.addr + c.gran.size) l := by
  induction l generalizing lo with
  | nil => exact List.chain'_nil
  | cons c cs ih =>
    obtain ⟨h1, h2⟩ := h
    cases cs with
    | nil => exact List.chain'_singleton c
    | cons d ds =>
      refine List.chain'_cons.2 ⟨?_, ih _ h2⟩
      rw [h2.1, h1]

theorem Tiles_pairwise (lo hi : Nat) (l : List EraseCall) (h : Tiles lo hi l) :
    List.Pairwise (fun c d => c.addr + c.gran.size ≤ d.addr) l := by
  induction l generalizing lo with
  | nil => exact List.Pairwise.nil
  | cons c cs ih =>
    obtain ⟨h1, h2⟩ := h
    refine List.Pairwise.cons ?_ (ih _ h2)
    intro d hd
    have := (Tiles_bounds _ _ _ h2 d hd).1
    omega

/-- The calls of one loop that does not run past the end of the address space
tile the range the loop walks over. -/
theorem Tiles_steps (g : Granularity) (a e n : Nat) (he : n ≠ 0 → e = a)
    (hb : a + n * g.size ≤ 2 ^ 32) : Tiles a (a + n * g.size) (stepsFrom g e n) := by
  induction n generalizing a e with
  | zero => simp [stepsFrom, Tiles]
  | succ n ih =>
    have hp := g.size_pos
    have h1 : e = a := he (Nat.succ_ne_zero n)
    have h2 : (n + 1) * g.size = n * g.size + g.size := by ring
    subst h1
    refine ⟨rfl, ?_⟩
    have h3 : e + (n + 1) * g.size = e + g.size + n * g.size := by omega
    rw [h3]
    refine ih (e + g.size) _ ?_ (by omega)
    intro hn
    have h4 : 1 ≤ n := Nat.one_le_iff_ne_zero.2 hn
    have h5 : g.size ≤ n * g.size := Nat.le_mul_of_pos_left _ h4
    exact Nat.mod_eq_of_lt (by omega)

theorem finCounts_eq (sz size l : Nat) (hl : l ≤ size) (hs : size < 2 ^ sz) :
    finCount64 sz size l = (size - l) / 65536 % 256 ∧
    finCount32 sz size l = (size - l) % 65536 / 32768 ∧
    finCount4 sz size l = (size - l) % 32768 / 4096 := by
  unfold finCount64 finCount32 finCount4 u8 EF_ERASE_MIN_SIZE EF_ERASE_32K_SIZE
    EF_ERASE_64K_SIZE
  rw [subW_eq sz size l hl hs]
  omega

theorem finLen_le (sz size l : Nat) (hl : l ≤ size) (hs : size < 2 ^ sz) :
    finLen sz size l ≤ size - l := by
  obtain ⟨h1, h2, h3⟩ := finCounts_eq sz size l hl hs
  unfold finLen
  rw [h1, h2, h3]
  omega

/-- Without truncation of the 64 KiB counter, the final phase erases all that
is left of a length that is a multiple of 4096. -/
theorem finLen_eq (sz size l : Nat) (hl : l ≤ size) (hs : size < 2 ^ sz)
    (hm : (size - l) % 4096 = 0) (ht : (size - l) / 65536 < 256) :
    finLen sz size l = size - l := by
  obtain ⟨h1, h2, h3⟩ := finCounts_eq sz size l hl hs
  unfold finLen
  rw [h1, h2, h3]
  omega

/-- The calls of the final phase tile the range they erase, as long as what is
left of the length fits below the end of the address space. -/
theorem finCalls_tiles (sz size e l E : Nat) (hl : l ≤ size) (hs : size < 2 ^ sz)
    (hE : E + (size - l) ≤ 2 ^ 32) (he : e = E % 2 ^ 32) :
    Tiles E (E + finLen sz size l) (finCalls sz size e l) := by
  obtain ⟨h1, h2, h3⟩ := finCounts_eq sz size l hl hs
  have he32 : e < 2 ^ 32 := by rw [he]; exact Nat.mod_lt _ (Nat.two_pow_pos 32)
  have ha1 : loopAddr EF_ERASE_64K_SIZE e (finCount64 sz size l) =
      (e + finCount64 sz size l * 65536) % 2 ^ 32 := loopAddr_eq _ _ _ he32
  have ha2 : loopAddr EF_ERASE_32K_SIZE
      (loopAddr EF_ERASE_64K_SIZE e (finCount64 sz size l)) (finCount32 sz size l) =
      ((e + finCount64 sz size l * 65536) % 2 ^ 32 + finCount32 sz size l * 32768) % 2 ^ 32 := by
    rw [ha1]; exact loopAddr_eq _ _ _ (Nat.mod_lt _ (Nat.two_pow_pos 32))
  unfold finCalls finLen
  rw [ha2, ha1]
  have t1 : Tiles E (E + finCount64 sz size l * 65536)
      (stepsFrom .BLOCK64 e (finCount64 sz size l)) :=
    Tiles_steps .BLOCK64 E e _ (by intro hk; omega)
      (by show E + finCount64 sz size l * 65536 ≤ 2 ^ 32; omega)
  have t2 : Tiles (E + finCount64 sz size l * 65536)
      (E + finCount64 sz size l * 65536 + finCount32 sz size l * 32768)
      (stepsFrom .BLOCK32 ((e + finCount64 sz size l * 65536) % 2 ^ 32)
        (finCount32 sz size l)) :=
    Tiles_steps .BLOCK32 _ _ _ (by intro hk; omega)
      (by show E + finCount64 sz size l * 65536 + finCount32 sz size l * 32768 ≤ 2 ^ 32; omega)
  have t3 : Tiles (E + finCount64 sz size l * 65536 + finCount32 sz size l * 32768)
      (E + finCount64 sz size l * 65536 + finCount32 sz size l * 32768 +
        finCount4 sz size l * 4096)
      (stepsFrom .SECTOR
        (((e + finCount64 sz size l * 65536) % 2 ^ 32 + finCount32 sz size l * 32768) % 2 ^ 32)
        (finCount4 sz size l)) :=
    Tiles_steps .SECTOR _ _ _ (by intro hk; omega)
      (by
        show E + finCount64 sz size l * 65536 + finCount32 sz size l * 32768 +
          finCount4 sz size l * 4096 ≤ 2 ^ 32
        omega)
  have t := Tiles_append _ _ _ _ _ t1 (Tiles_append _ _ _ _ _ t2 t3)
  have hsum : E + (finCount64 sz size l * 65536 + finCount32 sz size l * 32768 +
      finCount4 sz size l * 4096) =
      E + finCount64 sz size l * 65536 + finCount32 sz size l * 32768 +
        finCount4 sz size l * 4096 := by omega
  rw [hsum]
  exact t

/-- The calls of the ramp tile the range from the normalised address to the
64 KiB boundary, as long as that boundary is inside the address space. -/
theorem rampCalls_tiles (addr : Nat) (ha : addr < 2 ^ 32)
    (hb : normAddr addr + rampDist addr ≤ 2 ^ 32) :
    Tiles (normAddr addr) (normAddr addr + rampDist addr)
      (rampCalls (normAddr addr) (__64k_start_addr addr)) := by
  have hm := normAddr_mod addr
  unfold rampDist at hb ⊢
  by_cases hr : addr % 65536 = 0
  · rw [(ramp_aligned addr hr).1, if_pos hr]
    rfl
  · rw [if_neg hr] at hb ⊢
    by_cases hd : normAddr addr % 65536 ≤ 32768
    · rw [(ramp_far addr ha hr hd).1]
      have t1 : Tiles (normAddr addr)
          (normAddr addr + (32768 - normAddr addr % 65536) / 4096 * 4096)
          (stepsFrom .SECTOR (normAddr addr) ((32768 - normAddr addr % 65536) / 4096)) :=
        Tiles_steps .SECTOR _ _ _ (fun _ => rfl)
          (by
            show normAddr addr + (32768 - normAddr addr % 65536) / 4096 * 4096 ≤ 2 ^ 32
            omega)
      have h1 : normAddr addr + (32768 - normAddr addr % 65536) / 4096 * 4096 =
          normAddr addr + (32768 - normAddr addr % 65536) := by omega
      rw [h1] at t1
      refine Tiles_append _ _ _ _ _ t1 ⟨rfl, ?_⟩
      show normAddr addr + (32768 - normAddr addr % 65536) + 32768 =
        normAddr addr + (65536 - normAddr addr % 65536)
      omega
    · rw [(ramp_near addr ha hr (by omega)).1]
      have t1 : Tiles (normAddr addr)
          (normAddr addr + (65536 - normAddr addr % 65536) / 4096 * 4096)
          (stepsFrom .SECTOR (normAddr addr) ((65536 - normAddr addr % 65536) / 4096)) :=
        Tiles_steps .SECTOR _ _ _ (fun _ => rfl)
          (by
            show normAddr addr + (65536 - normAddr addr % 65536) / 4096 * 4096 ≤ 2 ^ 32
            omega)
      have h1 : normAddr addr + (65536 - normAddr addr % 65536) / 4096 * 4096 =
          normAddr addr + (65536 - normAddr addr % 65536) := by omega
      rw [h1] at t1
      exact t1

theorem erasedLen_le (sz addr size : Nat) (hs : size < 2 ^ sz) :
    erasedLen sz addr size ≤ normSize sz size := by
  have hl := rampDist_le addr
  have hN := normSize_lt sz size hs
  unfold erasedLen
  split
  · exact Nat.le_refl _
  · have := finLen_le sz (normSize sz size) (rampDist addr) (by omega) hN
    omega

/-- Apart from the one-sector request, the calls of `ef_port_erase` tile the
range they erase, which starts at the normalised address, as long as the
normalised request ends inside the address space. -/
theorem planOf_tiles (sz addr size : Nat) (ha : addr < 2 ^ 32) (hs : size < 2 ^ sz)
    (hN : normSize sz size ≠ 4096) (hb : normAddr addr + normSize sz size ≤ 2 ^ 32) :
    Tiles (normAddr addr) (normAddr addr + erasedLen sz addr size) (planOf sz addr size) := by
  have hm := normSize_mod sz size
  have hl := rampDist_le addr
  have hlt := normSize_lt sz size hs
  unfold planOf erasedLen EF_ERASE_MIN_SIZE EF_ERASE_64K_SIZE
  rw [if_neg hN, List.nil_append]
  by_cases h64 : normSize sz size < 65536
  · rw [if_pos h64, if_pos h64]
    have hu : u8 (normSize sz size / 4096) = normSize sz size / 4096 := by
      unfold u8; omega
    rw [hu]
    have t1 := Tiles_steps .SECTOR (normAddr addr) (normAddr addr) (normSize sz size / 4096)
      (fun _ => rfl)
      (by show normAddr addr + normSize sz size / 4096 * 4096 ≤ 2 ^ 32; omega)
    have h1 : normAddr addr + normSize sz size / 4096 * Granularity.SECTOR.size =
        normAddr addr + normSize sz size := by
      show normAddr addr + normSize sz size / 4096 * 4096 = _
      omega
    rw [h1] at t1
    exact t1
  · rw [if_neg h64, if_neg h64]
    obtain ⟨h2, h3⟩ := ramp_summary addr ha
    rw [h3]
    have t1 := rampCalls_tiles addr ha (by omega)
    have t2 := finCalls_tiles sz (normSize sz size)
      (rampAddr (normAddr addr) (__64k_start_addr addr)) (rampDist addr)
      (normAddr addr + rampDist addr) (by omega) hlt (by omega) h2
    have t := Tiles_append _ _ _ _ _ t1 t2
    rw [Nat.add_assoc] at t
    exact t

/-! ## Shape of the plan in the simple cases -/

theorem stepsFrom_kinds (g : Granularity) (a n : Nat) :
    kinds (stepsFrom g a n) = List.replicate n g := by
  induction n generalizing a with
  | zero => rfl
  | succ n ih =>
    show g :: kinds (stepsFrom g ((a + g.size) % 2 ^ 32) n) = _
    rw [ih, List.replicate_succ]

theorem kinds_append (xs ys : List EraseCall) : kinds (xs ++ ys) = kinds xs ++ kinds ys := by
  simp [kinds]

/-- A request that normalises to one sector: the sector is erased by line 112
and once more by the loop of lines 122-128. -/
theorem planOf_one_sector (sz addr size : Nat) (hN : normSize sz size = 4096) :
    planOf sz addr size = [⟨.SECTOR, normAddr addr⟩, ⟨.SECTOR, normAddr addr⟩] := by
  unfold planOf EF_ERASE_MIN_SIZE EF_ERASE_64K_SIZE
  rw [hN, if_pos rfl, if_pos (by norm_num)]
  rfl

/-- A request that normalises to less than 64 KiB, one sector apart: sector
erases only. -/
theorem planOf_small (sz addr size : Nat) (hN : normSize sz size ≠ 4096)
    (h64 : normSize sz size < 65536) :
    planOf sz addr size = stepsFrom .SECTOR (normAddr addr) (normSize sz size / 4096) := by
  unfold planOf EF_ERASE_MIN_SIZE EF_ERASE_64K_SIZE
  rw [if_neg hN, if_pos h64, List.nil_append]
  have hu : u8 (normSize sz size / 4096) = normSize sz size / 4096 := by
    unfold u8; omega
  rw [hu]

/-- A request of at least 64 KiB at a 64 KiB-aligned address: the final phase
only, entered at the requested address. -/
theorem planOf_aligned64 (sz addr size : Nat) (hr : addr % 65536 = 0)
    (h64 : 65536 ≤ normSize sz size) :
    planOf sz addr size = finCalls sz (normSize sz size) (normAddr addr) 0 := by
  obtain ⟨h1, h2, h3⟩ := ramp_aligned addr hr
  unfold planOf EF_ERASE_MIN_SIZE EF_ERASE_64K_SIZE
  rw [if_neg (by omega), if_neg (by omega), h1, h2, h3]
  rfl

/-! ## The two phases of a large request -/

theorem rampTrace_eq (addr : Nat) :
    rampTrace addr = rampCalls (normAddr addr) (__64k_start_addr addr) := by
  unfold rampTrace
  rw [ramp_eq, runCalls_recorder]
  rfl

theorem finTrace_eq (sz addr size : Nat) :
    finTrace sz addr size =
      finCalls sz (normSize sz size) (rampAddr (normAddr addr) (__64k_start_addr addr))
        (rampLen (normAddr addr) (__64k_start_addr addr)) := by
  unfold finTrace
  rw [ramp_eq, fin_erase_flash, runCalls_recorder]
  rfl

/-- A request of at least 64 KiB: the calls of the ramp, then the calls of the
final phase. -/
theorem erasePlan_large (sz addr size : Nat) (h64 : 65536 ≤ normSize sz size) :
    erasePlan sz addr size = rampTrace addr ++ finTrace sz addr size := by
  rw [erasePlan_eq, rampTrace_eq, finTrace_eq]
  unfold planOf EF_ERASE_MIN_SIZE EF_ERASE_64K_SIZE
  rw [if_neg (by omega), if_neg (by omega), List.nil_append]

/-- The calls of one loop, as a list indexed by the iteration. -/
theorem stepsFrom_range (g : Granularity) (a n : Nat) (ha : a < 2 ^ 32) :
    stepsFrom g a n =
      (List.range n).map (fun i => (⟨g, (a + i * g.size) % 2 ^ 32⟩ : EraseCall)) := by
  induction n generalizing a with
  | zero => rfl
  | succ n ih =>
    rw [stepsFrom, ih _ (Nat.mod_lt _ (Nat.two_pow_pos 32)), List.range_succ_eq_map,
      List.map_cons, List.map_map]
    congr 1
    · simp only [Nat.zero_mul, Nat.add_zero]
      rw [Nat.mod_eq_of_lt ha]
    · apply List.map_congr_left
      intro i _
      have h : (i + 1) * g.size = i * g.size + g.size := by ring
      simp only [Function.comp, Nat.succ_eq_add_one, h]
      congr 1
      omega

/-- The calls of one loop that stays inside the address space. -/
theorem stepsFrom_range_lt (g : Granularity) (a n : Nat) (hb : a + n * g.size ≤ 2 ^ 32) :
    stepsFrom g a n = (List.range n).map (fun i => (⟨g, a + i * g.size⟩ : EraseCall)) := by
  have hp := g.size_pos
  rcases Nat.eq_zero_or_pos n with h0 | h0
  · subst h0; rfl
  · have h1 : g.size ≤ n * g.size := Nat.le_mul_of_pos_left _ h0
    rw [stepsFrom_range g a n (by omega)]
    apply List.map_congr_left
    intro i hi
    have h2 : i < n := List.mem_range.1 hi
    have h3 : (i + 1) * g.size ≤ n * g.size := Nat.mul_le_mul_right _ h2
    have h4 : (i + 1) * g.size = i * g.size + g.size := by ring
    congr 1
    exact Nat.mod_eq_of_lt (by omega)

theorem stepsFrom_sectorWalk (a n : Nat) (hb : a + n * 4096 ≤ 2 ^ 32) :
    stepsFrom .SECTOR a n = sectorWalk a n :=
  stepsFrom_range_lt .SECTOR a n hb

/-- A start off the 64 KiB grid after normalisation comes from a requested
address off the 64 KiB grid. -/
theorem addr_unaligned_of_norm (addr : Nat) (h : normAddr addr % 65536 ≠ 0) :
    addr % 65536 ≠ 0 := by
  intro h0
  rw [(ramp_arith_aligned addr h0).1] at h
  exact h h0

theorem stepsFrom_sectorWalkMod (a n : Nat) (ha : a < 2 ^ 32) :
    stepsFrom .SECTOR a n = sectorWalkMod a n :=
  stepsFrom_range .SECTOR a n ha

theorem mem_sectorWalkMod (a n : Nat) (c : EraseCall) :
    c ∈ sectorWalkMod a n ↔ ∃ i, i < n ∧ c = ⟨.SECTOR, (a + i * 4096) % 2 ^ 32⟩ := by
  unfold sectorWalkMod
  rw [List.mem_map]
  constructor
  · rintro ⟨i, hi, rfl⟩
    exact ⟨i, List.mem_range.1 hi, rfl⟩
  · rintro ⟨i, hi, rfl⟩
    exact ⟨i, List.mem_range.2 hi, rfl⟩

/-- A request that normalises to less than 64 KiB: the extra call of line 112
for one sector, then the walk of the loop of lines 122-128. -/
theorem planOf_lt64 (sz addr size : Nat) (ha : addr < 2 ^ 32)
    (h64 : normSize sz size < 65536) :
    planOf sz addr size =
      (if normSize sz size = 4096 then [⟨.SECTOR, normAddr addr⟩] else []) ++
        sectorWalkMod (normAddr addr) (normSize sz size / 4096) := by
  have hu : u8 (normSize sz size / 4096) = normSize sz size / 4096 := by
    unfold u8; omega
  unfold planOf EF_ERASE_MIN_SIZE EF_ERASE_64K_SIZE
  rw [if_pos h64, hu, stepsFrom_sectorWalkMod _ _ (normAddr_lt addr ha)]

theorem normSize_le_ceil (sz size : Nat) : normSize sz size ≤ ceilSector size := by
  unfold normSize ceilSector EF_ERASE_MIN_SIZE
  split
  · exact Nat.le_trans (Nat.mod_le _ _) (by omega)
  · omega

theorem normSize_eq_ceil (sz size : Nat) (hs : size + 4096 ≤ 2 ^ sz) :
    normSize sz size = ceilSector size :=
  normSize_eq sz size hs

/-- The final phase of a request of at least 64 KiB, entered after a ramp of
`rampDist` bytes: its granularities and the range it tiles, when the 64 KiB
counter does not truncate. -/
theorem finTrace_shape (sz addr size : Nat) (ha : addr < 2 ^ 32) (hs : size < 2 ^ sz)
    (h64 : 65536 ≤ normSize sz size) (hb : normAddr addr + normSize sz size ≤ 2 ^ 32)
    (ht : (normSize sz size - rampDist addr) / 65536 < 256) :
    kinds (finTrace sz addr size) = specMinimalKinds (normSize sz size - rampDist addr) ∧
    Tiles (normAddr addr + rampDist addr) (normAddr addr + normSize sz size)
      (finTrace sz addr size) := by
  have hl := rampDist_le addr
  have hrm := rampDist_mod addr
  have hm := normSize_mod sz size
  have hlt := normSize_lt sz size hs
  obtain ⟨h2, h3⟩ := ramp_summary addr ha
  obtain ⟨c1, c2, c3⟩ := finCounts_eq sz (normSize sz size) (rampDist addr) (by omega) hlt
  rw [finTrace_eq, h3]
  constructor
  · unfold finCalls specMinimalKinds
    rw [kinds_append, kinds_append, stepsFrom_kinds, stepsFrom_kinds, stepsFrom_kinds,
      c1, c2, c3]
    have h4 : (normSize sz size - rampDist addr) / 65536 % 256 =
        (normSize sz size - rampDist addr) / 65536 := by omega
    rw [h4]
  · have t := finCalls_tiles sz (normSize sz size)
      (rampAddr (normAddr addr) (__64k_start_addr addr)) (rampDist addr)
      (normAddr addr + rampDist addr) (by omega) hlt (by omega) h2
    rw [finLen_eq sz (normSize sz size) (rampDist addr) (by omega) hlt (by omega) ht] at t
    have h5 : normAddr addr + rampDist addr + (normSize sz size - rampDist addr) =
        normAddr addr + normSize sz size := by omega
    rw [h5] at t
    exact t

/-- The number of BLOCK64 calls of the final phase is the 8-bit counter
`size_64k`. -/
theorem finCalls_count64 (sz size e l : Nat) :
    (kinds (finCalls sz size e l)).count Granularity.BLOCK64 = finCount64 sz size l := by
  have h32 : Granularity.BLOCK64 ∉ List.replicate (finCount32 sz size l) Granularity.BLOCK32 :=
    fun h => absurd (List.eq_of_mem_replicate h) (by decide)
  have h4 : Granularity.BLOCK64 ∉ List.replicate (finCount4 sz size l) Granularity.SECTOR :=
    fun h => absurd (List.eq_of_mem_replicate h) (by decide)
  unfold finCalls
  rw [kinds_append, kinds_append, stepsFrom_kinds, stepsFrom_kinds, stepsFrom_kinds,
    List.count_append, List.count_append, List.count_replicate_self,
    List.count_eq_zero_of_not_mem h32, List.count_eq_zero_of_not_mem h4]
  rfl

/-- Without truncation of the 64 KiB counter, the loops erase the whole
normalised length. -/
theorem erasedLen_eq (sz addr size : Nat) (hs : size < 2 ^ sz)
    (ht : (normSize sz size - rampDist addr) / 65536 < 256) :
    erasedLen sz addr size = normSize sz size := by
  have hl := rampDist_le addr
  have hrm := rampDist_mod addr
  have hm := normSize_mod sz size
  have hlt := normSize_lt sz size hs
  unfold erasedLen
  split
  · rfl
  · rw [finLen_eq sz (normSize sz size) (rampDist addr) (by omega) hlt (by omega) ht]
    omega

theorem le_ceilSector (n : Nat) : n ≤ ceilSector n := by
  unfold ceilSector; omega

/-! ## The claims -/

/-- C1 (failing input): for the request address 1, length 4096, `ef_port_erase`
erases sector 0 only; byte 4096 belongs to the requested range `[1, 4097)` and
lies in the span of no erase call. -/
theorem erase_misses_requested_byte :
    erasePlan 32 1 4096 = [⟨.SECTOR, 0⟩, ⟨.SECTOR, 0⟩] ∧
    (1 ≤ 4096 ∧ 4096 < 1 + 4096) ∧ ¬ covered (erasePlan 32 1 4096) 4096 := by
  decide

/-- C2 (failing input): for the request address 4095, length 2, the range
`[floor(4095,4096), ceil(4095+2,4096))` is `[0, 8192)` and holds the 4 KiB
units 0 and 1, yet no erase call of `ef_port_erase` touches unit 1 (the bytes
from 4096). -/
theorem erase_omits_unit :
    erasePlan 32 4095 2 = [⟨.SECTOR, 0⟩, ⟨.SECTOR, 0⟩] ∧
    (4095 / 4096 * 4096 ≤ 1 * 4096 ∧ 1 * 4096 < (4095 + 2 + 4095) / 4096 * 4096) ∧
    ¬ covered (erasePlan 32 4095 2) (1 * 4096) := by
  decide

/-- C3: every erase call issued by `ef_port_erase` has an address aligned to
its own granularity: every `FlashSectorErase` address is a multiple of 4096,
every `FlashBlockErase32` address a multiple of 32768 and every
`FlashBlockErase64` address a multiple of 65536, for every request. -/
theorem erase_calls_aligned (sz addr size : Nat) (ha : addr < 2 ^ 32) :
    ∀ c ∈ erasePlan sz addr size,
      (c.gran = Granularity.SECTOR → c.addr % 4096 = 0) ∧
      (c.gran = Granularity.BLOCK32 → c.addr % 32768 = 0) ∧
      (c.gran = Granularity.BLOCK64 → c.addr % 65536 = 0) := by
  intro c hc
  rw [erasePlan_eq] at hc
  have h := planOf_aligned sz addr size ha c hc
  unfold Aligned at h
  refine ⟨fun hg => ?_, fun hg => ?_, fun hg => ?_⟩ <;> rw [hg] at h <;> exact h

/-- The address bound above holds for the request (4096, 65536) on a target with a
32-bit `size_t`. -/
theorem erase_calls_aligned_witness :
    4096 < 2 ^ 32 ∧ ∀ c ∈ erasePlan 32 4096 65536,
      (c.gran = Granularity.SECTOR → c.addr % 4096 = 0) ∧
      (c.gran = Granularity.BLOCK32 → c.addr % 32768 = 0) ∧
      (c.gran = Granularity.BLOCK64 → c.addr % 65536 = 0) :=
  ⟨by norm_num, erase_calls_aligned 32 4096 65536 (by norm_num)⟩

/-- C4 (counterexample): the one-sector request (0, 4096) erases sector 0
twice, so the two spans overlap and the second call does not start where the
first span ended; and the request (0xFFFFF000, 8192) runs over the end of the
32-bit address space, so its second call is at address 0, below the first. -/
theorem erase_order_counterexample :
    ¬ List.Pairwise (fun c d => c.addr + c.gran.size ≤ d.addr) (erasePlan 32 0 4096) ∧
    ¬ List.Chain' (fun c d => d.addr = c.addr + c.gran.size) (erasePlan 32 0 4096) ∧
    ¬ List.Pairwise (fun c d => c.addr ≤ d.addr) (erasePlan 32 4294963200 8192) := by
  have h1 : erasePlan 32 0 4096 = [⟨.SECTOR, 0⟩, ⟨.SECTOR, 0⟩] := by decide
  have h2 : erasePlan 32 4294963200 8192 = [⟨.SECTOR, 4294963200⟩, ⟨.SECTOR, 0⟩] := by
    decide
  rw [h1, h2]
  simp [Granularity.size, EF_ERASE_MIN_SIZE]

/-- C4 (amended): for every request whose normalised length is not one sector
and whose normalised range ends inside the 32-bit address space, the erase
calls are emitted in increasing address order, their spans are pairwise
non-overlapping, and each call starts exactly where the span of the previous
call ended. -/
theorem erase_calls_contiguous (sz addr size : Nat) (ha : addr < 2 ^ 32)
    (hs : size < 2 ^ sz) (hN : normSize sz size ≠ 4096)
    (hb : normAddr addr + normSize sz size ≤ 2 ^ 32) :
    List.Pairwise (fun c d => c.addr < d.addr) (erasePlan sz addr size) ∧
    List.Pairwise (fun c d => c.addr + c.gran.size ≤ d.addr) (erasePlan sz addr size) ∧
    List.Chain' (fun c d => d.addr = c.addr + c.gran.size) (erasePlan sz addr size) := by
  rw [erasePlan_eq]
  have t := planOf_tiles sz addr size ha hs hN hb
  refine ⟨?_, Tiles_pairwise _ _ _ t, Tiles_chain _ _ _ t⟩
  refine (Tiles_pairwise _ _ _ t).imp ?_
  intro c d h
  have := c.gran.size_pos
  omega

/-- The request (4096, 65536) on a target with a 32-bit `size_t` meets the
hypotheses above: nine calls, from address 4096 to address 69632. -/
theorem erase_calls_contiguous_witness :
    4096 < 2 ^ 32 ∧ 65536 < 2 ^ 32 ∧ normSize 32 65536 ≠ 4096 ∧
    normAddr 4096 + normSize 32 65536 ≤ 2 ^ 32 ∧
    (List.Pairwise (fun c d => c.addr < d.addr) (erasePlan 32 4096 65536) ∧
    List.Pairwise (fun c d => c.addr + c.gran.size ≤ d.addr) (erasePlan 32 4096 65536) ∧
    List.Chain' (fun c d => d.addr = c.addr + c.gran.size) (erasePlan 32 4096 65536)) :=
  ⟨by norm_num, by norm_num, by decide, by decide,
    erase_calls_contiguous 32 4096 65536 (by norm_num) (by norm_num) (by decide) (by decide)⟩

/-- C5 (failing input): the one-sector requests (0, 4096) and (100, 1) each
make `ef_port_erase` issue two erase calls, both a sector erase at address 0:
the call of line 112 is followed by the loop of lines 122-128. -/
theorem one_sector_erased_twice :
    erasePlan 32 0 4096 = [⟨.SECTOR, 0⟩, ⟨.SECTOR, 0⟩] ∧
    erasePlan 32 100 1 = [⟨.SECTOR, 0⟩, ⟨.SECTOR, 0⟩] := by
  decide

/-- C6 (counterexample): at the 64 KiB-aligned address 0, the request of 32768
bytes is erased by eight sector erases and not by one 32 KiB block, the
request of 16 MiB issues no call at all instead of 256 64 KiB blocks, and the
request of 4096 bytes issues two sector erases instead of one. -/
theorem minimality_counterexample :
    0 % 65536 = 0 ∧
    kinds (erasePlan 32 0 32768) = List.replicate 8 Granularity.SECTOR ∧
    kinds (erasePlan 32 0 32768) ≠ specMinimalKinds (normSize 32 32768) ∧
    kinds (erasePlan 32 0 16777216) = [] ∧
    kinds (erasePlan 32 0 16777216) ≠ specMinimalKinds (normSize 32 16777216) ∧
    kinds (erasePlan 32 0 4096) = List.replicate 2 Granularity.SECTOR ∧
    kinds (erasePlan 32 0 4096) ≠ specMinimalKinds (normSize 32 4096) := by
  decide

/-- C6 (amended): for every request whose start address is a multiple of 65536
and whose normalised length `N` is not 4096 and is below `2^24`: when
`65536 ≤ N` the sequence of erase calls is `floor(N/65536)` BLOCK64 steps, then
`floor((N mod 65536)/32768)` BLOCK32 steps, then `(N mod 32768)/4096` SECTOR
steps; when `N < 65536` it is `N/4096` SECTOR steps. -/
theorem minimal_when_aligned (sz addr size : Nat) (hs : size < 2 ^ sz)
    (hr : addr % 65536 = 0) (hN : normSize sz size ≠ 4096)
    (h24 : normSize sz size < 2 ^ 24) :
    kinds (erasePlan sz addr size) =
      if 65536 ≤ normSize sz size then specMinimalKinds (normSize sz size)
      else List.replicate (normSize sz size / 4096) Granularity.SECTOR := by
  rw [erasePlan_eq]
  by_cases h64 : 65536 ≤ normSize sz size
  · obtain ⟨h1, h2, h3⟩ :=
      finCounts_eq sz (normSize sz size) 0 (Nat.zero_le _) (normSize_lt sz size hs)
    rw [if_pos h64, planOf_aligned64 sz addr size hr h64]
    unfold finCalls specMinimalKinds
    rw [kinds_append, kinds_append, stepsFrom_kinds, stepsFrom_kinds, stepsFrom_kinds,
      h1, h2, h3, Nat.sub_zero]
    have h4 : normSize sz size / 65536 % 256 = normSize sz size / 65536 := by omega
    rw [h4]
  · rw [if_neg h64, planOf_small sz addr size hN (by omega), stepsFrom_kinds]

/-- The request (65536, 167936) on a target with a 32-bit `size_t` meets the
hypotheses above: two BLOCK64 steps, one BLOCK32 step, one SECTOR step. -/
theorem minimal_when_aligned_witness :
    167936 < 2 ^ 32 ∧ 65536 % 65536 = 0 ∧ normSize 32 167936 ≠ 4096 ∧
    normSize 32 167936 < 2 ^ 24 ∧
    kinds (erasePlan 32 65536 167936) =
      if 65536 ≤ normSize 32 167936 then specMinimalKinds (normSize 32 167936)
      else List.replicate (normSize 32 167936 / 4096) Granularity.SECTOR :=
  ⟨by norm_num, by norm_num, by decide, by decide,
    minimal_when_aligned 32 65536 167936 (by norm_num) (by norm_num) (by decide) (by decide)⟩

/-- C7 (counterexample): the request (100, 65536) has the normalised start 0, a
multiple of 65536, and the normalised length 65536, yet its first erase call is
a sector erase; the request (0, 16 MiB) has an aligned start and issues no
BLOCK64 call (no call at all). -/
theorem ramp_noop_counterexample :
    (65536 ≤ normSize 32 65536 ∧ normAddr 100 % 65536 = 0 ∧
      (erasePlan 32 100 65536).head? = some ⟨.SECTOR, 0⟩ ∧
      (erasePlan 32 100 65536).head? ≠ some ⟨.BLOCK64, normAddr 100⟩) ∧
    (65536 ≤ normSize 32 16777216 ∧ normAddr 0 % 65536 = 0 ∧
      (erasePlan 32 0 16777216).head? = none ∧
      (erasePlan 32 0 16777216).head? ≠ some ⟨.BLOCK64, normAddr 0⟩) := by
  decide

/-- C7 (amended): for every request with normalised length `N ≥ 64 KiB` whose
requested address is itself a multiple of 65536 and with `floor(N/65536)` not a
multiple of 256, the ramp is a no-op (on every driver it leaves `erase_addr`,
`erase_len` and the flash untouched) and the first erase call is a BLOCK64
erase at the normalised start address. -/
theorem ramp_noop_when_aligned (sz addr size : Nat) (hs : size < 2 ^ sz)
    (hr : addr % 65536 = 0) (h64 : 65536 ≤ normSize sz size)
    (ht : normSize sz size / 65536 % 256 ≠ 0) :
    (∀ (σ : Type) (drv : FlashDriver σ) (st : EraseState σ),
      ramp drv (normAddr addr) (__64k_start_addr addr) st = st) ∧
    (erasePlan sz addr size).head? = some ⟨.BLOCK64, normAddr addr⟩ := by
  constructor
  · intro σ drv st
    obtain ⟨h1, h2⟩ := ramp_arith_aligned addr hr
    unfold ramp
    rw [h1, h2, if_pos rfl]
  · obtain ⟨h1, _, _⟩ :=
      finCounts_eq sz (normSize sz size) 0 (Nat.zero_le _) (normSize_lt sz size hs)
    rw [erasePlan_eq, planOf_aligned64 sz addr size hr h64]
    unfold finCalls
    rw [h1, Nat.sub_zero]
    obtain ⟨k, hk⟩ := Nat.exists_eq_succ_of_ne_zero ht
    rw [hk]
    rfl

/-- The request (65536, 131072) on a target with a 32-bit `size_t` meets the
hypotheses above. -/
theorem ramp_noop_when_aligned_witness :
    131072 < 2 ^ 32 ∧ 65536 % 65536 = 0 ∧ 65536 ≤ normSize 32 131072 ∧
    normSize 32 131072 / 65536 % 256 ≠ 0 ∧
    ((∀ (σ : Type) (drv : FlashDriver σ) (st : EraseState σ),
      ramp drv (normAddr 65536) (__64k_start_addr 65536) st = st) ∧
    (erasePlan 32 65536 131072).head? = some ⟨.BLOCK64, normAddr 65536⟩) :=
  ⟨by norm_num, by norm_num, by decide, by decide,
    ramp_noop_when_aligned 32 65536 131072 (by norm_num) (by norm_num) (by decide)
      (by decide)⟩

/-- C8 (counterexample): on a driver whose third call fails, the request
(0, 20480) of five sectors still has its fourth and fifth sector erased after
the failure, and `ef_port_erase` returns `EF_NO_ERR`. -/
theorem failure_not_propagated :
    ef_port_erase 32 (faultyDriver 3) 0 20480 [] =
      (EfErrCode.EF_NO_ERR,
        [(⟨.SECTOR, 0⟩, true), (⟨.SECTOR, 4096⟩, true), (⟨.SECTOR, 8192⟩, false),
          (⟨.SECTOR, 12288⟩, true), (⟨.SECTOR, 16384⟩, true)]) := by
  decide

/-- C8 (amended): `ef_port_erase` never looks at what an erase primitive
reports: on every driver, whatever its calls report, every call of the plan is
executed in order and the result is `EF_NO_ERR`. -/
theorem erase_ignores_failures {σ : Type} (sz : Nat) (drv : FlashDriver σ)
    (addr size : Nat) (fl : σ) :
    ef_port_erase sz drv addr size fl =
      (EfErrCode.EF_NO_ERR, runCalls drv (erasePlan sz addr size) fl) := by
  rw [ef_port_erase_eq, erasePlan_eq]

/-- C9: a zero-length request is a no-op for every address: `ef_port_erase`
issues no erase call at all and leaves the flash of every driver as it was. -/
theorem zero_length_noop (sz addr : Nat) :
    erasePlan sz addr 0 = [] ∧
    ∀ (σ : Type) (drv : FlashDriver σ) (fl : σ),
      ef_port_erase sz drv addr 0 fl = (EfErrCode.EF_NO_ERR, fl) := by
  have h0 : normSize sz 0 = 0 := by simp [normSize]
  have hp : planOf sz addr 0 = [] := by
    unfold planOf
    rw [h0]
    simp [EF_ERASE_MIN_SIZE, EF_ERASE_64K_SIZE, u8, stepsFrom]
  refine ⟨by rw [erasePlan_eq, hp], ?_⟩
  intro σ drv fl
  rw [ef_port_erase_eq, hp]
  rfl

/-- C10 (counterexample): with a 32-bit `size_t`, the length `2^32 - 1`
normalises to 0: the rounding up overflows, and the normalised length is below
the length. -/
theorem normalization_overflow_counterexample :
    normSize 32 4294967295 = 0 ∧ ¬ (4294967295 ≤ normSize 32 4294967295) := by
  decide

/-- C10 (amended): normalisation rounds the address down and, for every length
of at most `2^sz - 4096` (`sz` the width of `size_t`), the length up: the
normalised address is `address - (address mod 4096)`, the greatest multiple of
4096 not above the address; the normalised length is the least multiple of 4096
that is at least the length, unchanged when the length is a multiple of 4096;
the normalised address, the normalised length and their sum are multiples of
4096. -/
theorem normalization_rounds (sz addr size : Nat) (hs : size + 4096 ≤ 2 ^ sz) :
    normAddr addr = addr - addr % 4096 ∧
    normAddr addr ≤ addr ∧ addr < normAddr addr + 4096 ∧
    normAddr addr % 4096 = 0 ∧
    size ≤ normSize sz size ∧
    normSize sz size % 4096 = 0 ∧
    (∀ m, m % 4096 = 0 → size ≤ m → normSize sz size ≤ m) ∧
    (size % 4096 = 0 → normSize sz size = size) ∧
    (normAddr addr + normSize sz size) % 4096 = 0 := by
  have h1 := normSize_eq sz size hs
  have h2 := normAddr_mod addr
  have h3 : normAddr addr = addr - addr % 4096 := rfl
  refine ⟨h3, by omega, by omega, h2, by omega, by omega, ?_, by omega, by omega⟩
  intro m hm hle
  omega

/-- The request (4100, 5000) on a target with a 32-bit `size_t` meets the
hypothesis above: it normalises to (4096, 8192). -/
theorem normalization_rounds_witness :
    5000 + 4096 ≤ 2 ^ 32 ∧
    (normAddr 4100 = 4100 - 4100 % 4096 ∧
    normAddr 4100 ≤ 4100 ∧ 4100 < normAddr 4100 + 4096 ∧
    normAddr 4100 % 4096 = 0 ∧
    5000 ≤ normSize 32 5000 ∧
    normSize 32 5000 % 4096 = 0 ∧
    (∀ m, m % 4096 = 0 → 5000 ≤ m → normSize 32 5000 ≤ m) ∧
    (5000 % 4096 = 0 → normSize 32 5000 = 5000) ∧
    (normAddr 4100 + normSize 32 5000) % 4096 = 0) :=
  ⟨by norm_num, normalization_rounds 32 4100 5000 (by norm_num)⟩

/-- C11: normalisation is idempotent: for every address and length, applying
the normalisation step of `ef_port_erase` to an already normalised pair returns
the same pair. -/
theorem normalization_idempotent (sz addr size : Nat) :
    (normAddr (normAddr addr), normSize sz (normSize sz size)) =
      (normAddr addr, normSize sz size) := by
  have h1 := normAddr_mod addr
  have h2 := normSize_mod sz size
  have h3 : normAddr (normAddr addr) = normAddr addr := by
    unfold normAddr EF_ERASE_MIN_SIZE at h1 ⊢
    omega
  have h4 : normSize sz (normSize sz size) = normSize sz size := by
    rw [normSize.eq_def sz (normSize sz size)]
    unfold EF_ERASE_MIN_SIZE
    rw [if_neg (by omega)]
  rw [h3, h4]

/-- C12: for the request address 4096, length 65536, `ef_port_erase` issues
seven SECTOR steps at 4096, 8192, ..., 28672, then one BLOCK32 step at 32768
that reaches the 64 KiB boundary, then one SECTOR step at 65536 for the final
4096 bytes: nine steps in total (with a 32-bit and with a 64-bit `size_t`). -/
theorem scenario_ramp_then_sector :
    erasePlan 32 4096 65536 =
      [⟨.SECTOR, 4096⟩, ⟨.SECTOR, 8192⟩, ⟨.SECTOR, 12288⟩, ⟨.SECTOR, 16384⟩,
        ⟨.SECTOR, 20480⟩, ⟨.SECTOR, 24576⟩, ⟨.SECTOR, 28672⟩, ⟨.BLOCK32, 32768⟩,
        ⟨.SECTOR, 65536⟩] ∧
    erasePlan 64 4096 65536 = erasePlan 32 4096 65536 ∧
    (erasePlan 32 4096 65536).length = 9 := by
  decide

/-- C13 (counterexample): the request (0xFFFFF000, 65536) has a normalised
start off the 64 KiB grid whose next 64 KiB boundary is `2^32`; the ramp erases
one sector and leaves `erase_addr` at 0, not at that boundary. -/
theorem ramp_end_counterexample :
    65536 ≤ normSize 32 65536 ∧ normAddr 4294963200 % 65536 ≠ 0 ∧
    nextBoundary (normAddr 4294963200) = 4294967296 ∧
    rampTrace 4294963200 = [⟨.SECTOR, 4294963200⟩] ∧
    (ramp recorder (normAddr 4294963200) (__64k_start_addr 4294963200)
      { erase_addr := normAddr 4294963200, erase_len := 0, flash := [] }).erase_addr = 0 := by
  decide

/-- C13 (amended): for every request with normalised length at least 64 KiB
whose normalised start `a` is not a multiple of 65536, with `B` the next 64 KiB
boundary above `a` and `d = B - a`: the plan begins with the calls of the ramp;
if `d ≥ 32768` these are `(d - 32768)/4096` SECTOR steps at `a`, `a + 4096`, ...
followed by exactly one BLOCK32 step at `B - 32768`; if `d < 32768` they are
`d/4096` SECTOR steps at `a`, `a + 4096`, ... and no BLOCK32 step; in both cases
the ramp ends with `erase_addr` equal to `B` modulo `2^32`. -/
theorem ramp_shape (sz addr size : Nat) (ha : addr < 2 ^ 32)
    (h64 : 65536 ≤ normSize sz size) (hna : normAddr addr % 65536 ≠ 0) :
    erasePlan sz addr size = rampTrace addr ++ finTrace sz addr size ∧
    rampTrace addr =
      (if 32768 ≤ nextBoundary (normAddr addr) - normAddr addr then
        sectorWalk (normAddr addr)
            ((nextBoundary (normAddr addr) - normAddr addr - 32768) / 4096) ++
          [⟨.BLOCK32, nextBoundary (normAddr addr) - 32768⟩]
      else
        sectorWalk (normAddr addr) ((nextBoundary (normAddr addr) - normAddr addr) / 4096)) ∧
    (ramp recorder (normAddr addr) (__64k_start_addr addr)
      { erase_addr := normAddr addr, erase_len := 0, flash := [] }).erase_addr =
        nextBoundary (normAddr addr) % 2 ^ 32 := by
  have hn := normAddr_lt addr ha
  have hm := normAddr_mod addr
  have hr := addr_unaligned_of_norm addr hna
  have hd : nextBoundary (normAddr addr) - normAddr addr = 65536 - normAddr addr % 65536 := by
    unfold nextBoundary; omega
  have hB : normAddr addr + (65536 - normAddr addr % 65536) = nextBoundary (normAddr addr) := by
    unfold nextBoundary; omega
  refine ⟨erasePlan_large sz addr size h64, ?_, ?_⟩
  · rw [rampTrace_eq, hd]
    by_cases hfar : normAddr addr % 65536 ≤ 32768
    · rw [if_pos (by omega), (ramp_far addr ha hr hfar).1,
        stepsFrom_sectorWalk _ _ (by omega)]
      have h1 : 65536 - normAddr addr % 65536 - 32768 = 32768 - normAddr addr % 65536 := by
        omega
      have h2 : normAddr addr + (32768 - normAddr addr % 65536) =
          nextBoundary (normAddr addr) - 32768 := by
        unfold nextBoundary; omega
      rw [h1, h2]
    · rw [if_neg (by omega), (ramp_near addr ha hr (by omega)).1,
        stepsFrom_sectorWalk _ _ (by omega)]
  · rw [ramp_eq]
    show rampAddr (normAddr addr) (__64k_start_addr addr) = _
    by_cases hfar : normAddr addr % 65536 ≤ 32768
    · rw [(ramp_far addr ha hr hfar).2.1, hB]
    · rw [(ramp_near addr ha hr (by omega)).2.1, hB]

/-- The request (4096, 65536) on a target with a 32-bit `size_t` meets the
hypotheses above: seven sectors, then one 32 KiB block ending at 65536. -/
theorem ramp_shape_witness :
    4096 < 2 ^ 32 ∧ 65536 ≤ normSize 32 65536 ∧ normAddr 4096 % 65536 ≠ 0 ∧
    (erasePlan 32 4096 65536 = rampTrace 4096 ++ finTrace 32 4096 65536 ∧
    rampTrace 4096 =
      (if 32768 ≤ nextBoundary (normAddr 4096) - normAddr 4096 then
        sectorWalk (normAddr 4096)
            ((nextBoundary (normAddr 4096) - normAddr 4096 - 32768) / 4096) ++
          [⟨.BLOCK32, nextBoundary (normAddr 4096) - 32768⟩]
      else
        sectorWalk (normAddr 4096) ((nextBoundary (normAddr 4096) - normAddr 4096) / 4096)) ∧
    (ramp recorder (normAddr 4096) (__64k_start_addr 4096)
      { erase_addr := normAddr 4096, erase_len := 0, flash := [] }).erase_addr =
        nextBoundary (normAddr 4096) % 2 ^ 32) :=
  ⟨by norm_num, by decide, by decide,
    ramp_shape 32 4096 65536 (by norm_num) (by decide) (by decide)⟩

/-- C14 (counterexample): for the request (0, 16 MiB), 256 blocks of 64 KiB
remain at the final phase, which issues no call at all; and for the request
(0xFFFF0000, 131072) the second BLOCK64 step of the final phase is at address
0, not at the address where the first one ended. -/
theorem final_phase_counterexample :
    (65536 ≤ normSize 32 16777216 ∧ finTrace 32 0 16777216 = [] ∧
      kinds (finTrace 32 0 16777216) ≠
        specMinimalKinds (normSize 32 16777216 - rampDist 0)) ∧
    (65536 ≤ normSize 32 131072 ∧
      finTrace 32 4294901760 131072 = [⟨.BLOCK64, 4294901760⟩, ⟨.BLOCK64, 0⟩] ∧
      ¬ Tiles (normAddr 4294901760 + rampDist 4294901760)
        (normAddr 4294901760 + normSize 32 131072) (finTrace 32 4294901760 131072)) := by
  have h1 : finTrace 32 4294901760 131072 = [⟨.BLOCK64, 4294901760⟩, ⟨.BLOCK64, 0⟩] := by
    decide
  refine ⟨by decide, by decide, h1, ?_⟩
  rw [h1]
  intro h
  have h2 := h.2.1
  revert h2
  decide

/-- C14 (amended): for every request with normalised length `N ≥ 64 KiB` that
ends inside the 32-bit address space (`a + N ≤ 2^32`) and leaves fewer than 256
blocks of 64 KiB after the ramp: the ramp erases `r` bytes from the normalised
address `a` and reaches the 64 KiB-aligned address `B = a + r`; the final phase
then erases the remaining `R = N - r` bytes coarsest-first, `floor(R/65536)`
BLOCK64 steps starting at `B`, then `floor((R mod 65536)/32768)` BLOCK32 steps,
then `(R mod 32768)/4096` SECTOR steps, at consecutive addresses up to `a + N`;
in particular (address 0, length 65536) yields the plan `[(BLOCK64, 0)]`. -/
theorem final_phase_coarsest_first (sz addr size : Nat) (ha : addr < 2 ^ 32)
    (hs : size < 2 ^ sz) (h64 : 65536 ≤ normSize sz size)
    (hb : normAddr addr + normSize sz size ≤ 2 ^ 32)
    (ht : (normSize sz size - rampDist addr) / 65536 < 256) :
    erasePlan sz addr size = rampTrace addr ++ finTrace sz addr size ∧
    (ramp recorder (normAddr addr) (__64k_start_addr addr)
      { erase_addr := normAddr addr, erase_len := 0, flash := [] }).erase_len =
        rampDist addr ∧
    Tiles (normAddr addr) (normAddr addr + rampDist addr) (rampTrace addr) ∧
    (normAddr addr + rampDist addr) % 65536 = 0 ∧
    kinds (finTrace sz addr size) = specMinimalKinds (normSize sz size - rampDist addr) ∧
    Tiles (normAddr addr + rampDist addr) (normAddr addr + normSize sz size)
      (finTrace sz addr size) ∧
    erasePlan 32 0 65536 = [⟨.BLOCK64, 0⟩] := by
  have hl := rampDist_le addr
  obtain ⟨h2, h3⟩ := ramp_summary addr ha
  obtain ⟨k1, k2⟩ := finTrace_shape sz addr size ha hs h64 hb ht
  refine ⟨erasePlan_large sz addr size h64, ?_, ?_, ?_, k1, k2, by decide⟩
  · rw [ramp_eq]
    exact h3
  · rw [rampTrace_eq]
    exact rampCalls_tiles addr ha (by omega)
  · have h4 := rampAddr_mod addr ha
    rw [h2] at h4
    omega

/-- The request (4096, 65536) on a target with a 32-bit `size_t` meets the
hypotheses above: the ramp erases 61440 bytes and reaches 65536, where one
sector is left. -/
theorem final_phase_coarsest_first_witness :
    4096 < 2 ^ 32 ∧ 65536 < 2 ^ 32 ∧ 65536 ≤ normSize 32 65536 ∧
    normAddr 4096 + normSize 32 65536 ≤ 2 ^ 32 ∧
    (normSize 32 65536 - rampDist 4096) / 65536 < 256 ∧
    (erasePlan 32 4096 65536 = rampTrace 4096 ++ finTrace 32 4096 65536 ∧
    (ramp recorder (normAddr 4096) (__64k_start_addr 4096)
      { erase_addr := normAddr 4096, erase_len := 0, flash := [] }).erase_len =
        rampDist 4096 ∧
    Tiles (normAddr 4096) (normAddr 4096 + rampDist 4096) (rampTrace 4096) ∧
    (normAddr 4096 + rampDist 4096) % 65536 = 0 ∧
    kinds (finTrace 32 4096 65536) = specMinimalKinds (normSize 32 65536 - rampDist 4096) ∧
    Tiles (normAddr 4096 + rampDist 4096) (normAddr 4096 + normSize 32 65536)
      (finTrace 32 4096 65536) ∧
    erasePlan 32 0 65536 = [⟨.BLOCK64, 0⟩]) :=
  ⟨by norm_num, by norm_num, by decide, by decide, by decide,
    final_phase_coarsest_first 32 4096 65536 (by norm_num) (by norm_num) (by decide)
      (by decide) (by decide)⟩

/-- C15 (counterexample): the request (0xFFFFF000, 8192) normalises to two
sectors; its second sector erase is at address 0, which is not of the form
`a + 4096 * i`; and the one-sector request (0, 4096) visits sector 0 twice
instead of walking forward. -/
theorem small_request_counterexample :
    normSize 32 8192 < 65536 ∧
    (⟨.SECTOR, 0⟩ : EraseCall) ∈ erasePlan 32 4294963200 8192 ∧
    (¬ ∃ i, i < normSize 32 8192 / 4096 ∧ 0 = normAddr 4294963200 + 4096 * i) ∧
    normSize 32 4096 < 65536 ∧
    erasePlan 32 0 4096 = [⟨.SECTOR, 0⟩, ⟨.SECTOR, 0⟩] ∧
    sectorWalk (normAddr 0) (normSize 32 4096 / 4096) = [⟨.SECTOR, 0⟩] := by
  refine ⟨by decide, by decide, ?_, by decide, by decide, by decide⟩
  rintro ⟨i, _, h⟩
  have h1 : normAddr 4294963200 = 4294963200 := by decide
  rw [h1] at h
  omega

/-- C15 (amended): for every request whose normalised length `N` is smaller
than 64 KiB, every erase call is a sector erase (no BLOCK32 or BLOCK64 call is
made), and the sector addresses erased are exactly the addresses
`(a + 4096 * i) mod 2^32` for `0 ≤ i < N/4096`, with `a` the normalised address;
unless `N = 4096`, they are visited walking forward 4096 bytes at a time, once
each. -/
theorem small_request_sectors (sz addr size : Nat) (ha : addr < 2 ^ 32)
    (h64 : normSize sz size < 65536) :
    (∀ c ∈ erasePlan sz addr size, c.gran = Granularity.SECTOR) ∧
    (∀ s, (⟨.SECTOR, s⟩ : EraseCall) ∈ erasePlan sz addr size ↔
      ∃ i, i < normSize sz size / 4096 ∧ s = (normAddr addr + i * 4096) % 2 ^ 32) ∧
    (normSize sz size ≠ 4096 →
      erasePlan sz addr size = sectorWalkMod (normAddr addr) (normSize sz size / 4096)) := by
  have hn := normAddr_lt addr ha
  rw [erasePlan_eq, planOf_lt64 sz addr size ha h64]
  by_cases hN : normSize sz size = 4096
  · rw [if_pos hN, hN]
    have hw : sectorWalkMod (normAddr addr) (4096 / 4096) = [⟨.SECTOR, normAddr addr⟩] := by
      show [(⟨.SECTOR, (normAddr addr + 0 * 4096) % 2 ^ 32⟩ : EraseCall)] = _
      rw [Nat.zero_mul, Nat.add_zero, Nat.mod_eq_of_lt hn]
    rw [hw]
    refine ⟨?_, ?_, fun h => absurd rfl h⟩
    · intro c hc
      simp only [List.cons_append, List.nil_append, List.mem_cons, List.mem_singleton,
        List.not_mem_nil, or_false, or_self] at hc
      rw [hc]
    · intro s
      simp only [List.cons_append, List.nil_append, List.mem_cons, List.mem_singleton,
        List.not_mem_nil, or_false, or_self, EraseCall.mk.injEq, true_and]
      constructor
      · intro h
        exact ⟨0, by norm_num, by rw [h, Nat.zero_mul, Nat.add_zero, Nat.mod_eq_of_lt hn]⟩
      · rintro ⟨i, hi, h⟩
        have hi0 : i = 0 := by omega
        rw [hi0, Nat.zero_mul, Nat.add_zero, Nat.mod_eq_of_lt hn] at h
        exact h
  · rw [if_neg hN, List.nil_append]
    refine ⟨?_, ?_, fun _ => rfl⟩
    · intro c hc
      obtain ⟨i, _, rfl⟩ := (mem_sectorWalkMod _ _ c).1 hc
      rfl
    · intro s
      rw [mem_sectorWalkMod]
      constructor
      · rintro ⟨i, hi, h⟩
        exact ⟨i, hi, (EraseCall.mk.inj h).2⟩
      · rintro ⟨i, hi, h⟩
        exact ⟨i, hi, by rw [h]⟩

/-- The request (8192, 12288) on a target with a 32-bit `size_t` meets the
hypotheses above: three sectors at 8192, 12288 and 16384. -/
theorem small_request_sectors_witness :
    8192 < 2 ^ 32 ∧ normSize 32 12288 < 65536 ∧
    ((∀ c ∈ erasePlan 32 8192 12288, c.gran = Granularity.SECTOR) ∧
    (∀ s, (⟨.SECTOR, s⟩ : EraseCall) ∈ erasePlan 32 8192 12288 ↔
      ∃ i, i < normSize 32 12288 / 4096 ∧ s = (normAddr 8192 + i * 4096) % 2 ^ 32) ∧
    (normSize 32 12288 ≠ 4096 →
      erasePlan 32 8192 12288 = sectorWalkMod (normAddr 8192) (normSize 32 12288 / 4096))) :=
  ⟨by norm_num, by decide, small_request_sectors 32 8192 12288 (by norm_num) (by decide)⟩

/-- C16: for every request with normalised start `a = floor(address, 4096)` and
normalised length `N = ceil(length, 4096)` such that `N > 4096`, `a + N` does not
exceed `2^32`, and fewer than 256 blocks of 64 KiB remain after the ramp phase,
the spans of the erase calls, taken in emission order, tile `[a, a + N)`
exactly: the first step starts at `a`, each later step starts where the
previous span ended, and the last span ends at `a + N`. -/
theorem plan_tiles_normalized_range (sz addr size : Nat) (hsz : 32 ≤ sz)
    (ha : addr < 2 ^ 32) (hN : 4096 < ceilSector size)
    (hb : normAddr addr + ceilSector size ≤ 2 ^ 32)
    (ht : (ceilSector size - rampDist addr) / 65536 < 256) :
    Tiles (normAddr addr) (normAddr addr + ceilSector size) (erasePlan sz addr size) := by
  have hl := rampDist_le addr
  have hc := le_ceilSector size
  have h32 : 2 ^ 32 ≤ 2 ^ sz := Nat.pow_le_pow_right (by norm_num) hsz
  have hs4 : size + 4096 ≤ 2 ^ sz := by omega
  have hs : size < 2 ^ sz := by omega
  have he := normSize_eq_ceil sz size hs4
  rw [← he] at hN hb ht ⊢
  have t := planOf_tiles sz addr size ha hs (by omega) hb
  rw [erasedLen_eq sz addr size hs ht] at t
  rw [erasePlan_eq]
  exact t

/-- The request (4096, 65536) on a target with a 32-bit `size_t` meets the
hypotheses above: its nine calls tile `[4096, 69632)`. -/
theorem plan_tiles_normalized_range_witness :
    32 ≤ 32 ∧ 4096 < 2 ^ 32 ∧ 4096 < ceilSector 65536 ∧
    normAddr 4096 + ceilSector 65536 ≤ 2 ^ 32 ∧
    (ceilSector 65536 - rampDist 4096) / 65536 < 256 ∧
    Tiles (normAddr 4096) (normAddr 4096 + ceilSector 65536) (erasePlan 32 4096 65536) :=
  ⟨by norm_num, by norm_num, by decide, by decide, by decide,
    plan_tiles_normalized_range 32 4096 65536 (by norm_num) (by norm_num) (by decide)
      (by decide) (by decide)⟩

/-- C17: the step counters of `ef_port_erase` are `uint8_t`, so for every
request that reaches the final phase the number of BLOCK64 steps issued there
is `floor(R/65536) mod 256`, where `R` is the length remaining after the ramp;
for the request (address 0, length 16 MiB), where `floor(R/65536) = 256`,
`ef_port_erase` issues no erase call at all and still returns `EF_NO_ERR`. -/
theorem counter_truncation (sz addr size : Nat) (ha : addr < 2 ^ 32) (hs : size < 2 ^ sz)
    (h64 : 65536 ≤ normSize sz size) :
    (kinds (finTrace sz addr size)).count Granularity.BLOCK64 =
      (normSize sz size - rampDist addr) / 65536 % 256 ∧
    (normSize 32 16777216 - rampDist 0) / 65536 = 256 ∧
    erasePlan 32 0 16777216 = [] ∧
    eraseResult 32 0 16777216 = EfErrCode.EF_NO_ERR := by
  have hl := rampDist_le addr
  obtain ⟨_, h3⟩ := ramp_summary addr ha
  obtain ⟨c1, _, _⟩ :=
    finCounts_eq sz (normSize sz size) (rampDist addr) (by omega) (normSize_lt sz size hs)
  refine ⟨?_, by decide, by decide, by decide⟩
  rw [finTrace_eq, finCalls_count64, h3, c1]

/-- The request (0, 16 MiB) on a target with a 32-bit `size_t` meets the
hypotheses above: 256 blocks remain and the counter holds 0. -/
theorem counter_truncation_witness :
    0 < 2 ^ 32 ∧ 16777216 < 2 ^ 32 ∧ 65536 ≤ normSize 32 16777216 ∧
    ((kinds (finTrace 32 0 16777216)).count Granularity.BLOCK64 =
      (normSize 32 16777216 - rampDist 0) / 65536 % 256 ∧
    (normSize 32 16777216 - rampDist 0) / 65536 = 256 ∧
    erasePlan 32 0 16777216 = [] ∧
    eraseResult 32 0 16777216 = EfErrCode.EF_NO_ERR) :=
  ⟨by norm_num, by norm_num, by decide,
    counter_truncation 32 0 16777216 (by norm_num) (by norm_num) (by decide)⟩

/-- C18: for every request with normalised start `a = floor(address, 4096)` and
normalised length `N = ceil(length, 4096)` such that `a + N` does not exceed
`2^32`, every erase call issued by `ef_port_erase`, of granularity `g` at
address `s`, satisfies `a ≤ s` and `s + g ≤ a + N`: no byte outside `[a, a + N)`
is ever erased, also when `N = 4096` and when the 8-bit step counters
truncate. -/
theorem no_collateral_erase (sz addr size : Nat) (ha : addr < 2 ^ 32) (hs : size < 2 ^ sz)
    (hb : normAddr addr + ceilSector size ≤ 2 ^ 32) :
    ∀ c ∈ erasePlan sz addr size,
      normAddr addr ≤ c.addr ∧ c.addr + c.gran.size ≤ normAddr addr + ceilSector size := by
  have hle := normSize_le_ceil sz size
  have hel := erasedLen_le sz addr size hs
  intro c hc
  rw [erasePlan_eq] at hc
  by_cases hN : normSize sz size = 4096
  · rw [planOf_one_sector sz addr size hN] at hc
    simp only [List.mem_cons, List.mem_singleton, List.not_mem_nil, or_false, or_self] at hc
    rw [hc]
    show normAddr addr ≤ normAddr addr ∧ normAddr addr + 4096 ≤ _
    omega
  · have t := planOf_tiles sz addr size ha hs hN (by omega)
    have hbd := Tiles_bounds _ _ _ t c hc
    omega

/-- The request (0, 16 MiB + 4096) on a target with a 32-bit `size_t` meets
the hypotheses above; its 64 KiB counter truncates to 0. -/
theorem no_collateral_erase_witness :
    0 < 2 ^ 32 ∧ 16781312 < 2 ^ 32 ∧ normAddr 0 + ceilSector 16781312 ≤ 2 ^ 32 ∧
    ∀ c ∈ erasePlan 32 0 16781312,
      normAddr 0 ≤ c.addr ∧ c.addr + c.gran.size ≤ normAddr 0 + ceilSector 16781312 :=
  ⟨by norm_num, by norm_num, by decide,
    no_collateral_erase 32 0 16781312 (by norm_num) (by norm_num) (by decide)⟩

end EfPort
